import Mathlib

/-!
# Verification of the MADTOR drug-network simulation (`src/madtor`)

Shallow embedding of the data model and the operations of the MADTOR
simulation: `agents.py` (members, links, network), `activities.py`
(acquisition, tiered transfer, retail sale), `law_enforcement.py`
(arrests, confiscation, stock recalculation) and `statistics.py`
(components, degree and betweenness centrality).

Modelling conventions:
* Python floats are modelled as rationals (`ℚ`); Python ints as `ℤ`/`ℕ`.
* Python's `random` draws are explicit oracle inputs: every theorem
  quantifies over all possible draw values.
* The only non-rational arithmetic in the embedded code is the real power
  `0.0001 ** e` (trafficker attractiveness updates) and the `math.log` /
  `math.pow` growth formulas.  The power law `e ↦ 0.0001 ** e` is
  abstracted as an explicit function parameter `pow4`, and the
  `math.log`-derived recruitment targets are oracle inputs; the structure
  of every update is transcribed exactly.
* Python `set`s are modelled as insertion-ordered duplicate-free lists;
  dicts keyed by agent id as lists of records carrying their id.
-/

namespace Madtor

/-- Member role (`agent_type` in `agents.py`): trafficker, packager or
retailer. -/
inductive AgentType where
  | trafficker
  | packager
  | retailer
deriving DecidableEq, Repr

/-- First-match association lookup (Python dict access on an id-keyed
association list). -/
def assocFind {β : Type} : List (ℕ × β) → ℕ → Option β
  | [], _ => none
  | p :: rest, k => if p.1 = k then some p.2 else assocFind rest k

/-- `agents.py` `Link`: a connection between two agents with a familiarity
metric. -/
structure LinkRec where
  agent_id_1 : ℕ
  agent_id_2 : ℕ
  familiarity : ℚ
  link_type : String
deriving DecidableEq, Repr

/-- `agents.py` `Agent` (with the `Trafficker`/`Packager`/`Retailer`
subclasses collapsed into the `agent_type` tag).  `availability` is `none`
for traffickers and `some 0/1` for packagers and retailers, as in the
source constructor. -/
structure Agent where
  agent_id : ℕ
  agent_type : AgentType
  drug : ℚ
  attractiveness : ℚ
  availability : Option ℤ
  connections : List ℕ
  link_data : List (ℕ × LinkRec)
  profit : ℚ
  is_arrested : Bool
  arrest_date : Option ℤ

namespace Agent

/-- `Agent.add_connection`: add the partner to the connection set; create
the link record with the given familiarity on first contact, otherwise
increment the stored familiarity by 1. -/
def add_connection (a : Agent) (other : ℕ) (lt : String) (fam : ℚ) : Agent :=
  let conns := if other ∈ a.connections then a.connections else a.connections ++ [other]
  match assocFind a.link_data other with
  | none =>
      { a with connections := conns,
               link_data := a.link_data ++ [(other, ⟨a.agent_id, other, fam, lt⟩)] }
  | some _ =>
      { a with connections := conns,
               link_data := a.link_data.map (fun p =>
                 if p.1 = other then (p.1, { p.2 with familiarity := p.2.familiarity + 1 })
                 else p) }

/-- `Agent.get_connection_familiarity`: familiarity with another agent,
0 if no connection. -/
def get_connection_familiarity (a : Agent) (other : ℕ) : ℚ :=
  match assocFind a.link_data other with
  | none => 0
  | some l => l.familiarity

/-- `Agent.get_degree`: number of connections. -/
def get_degree (a : Agent) : ℕ :=
  a.connections.length

end Agent

/-- `agents.py` `Network`: id-keyed agent map (modelled as a list in
insertion order) plus the list of `Link` records. -/
structure Network where
  agents : List Agent
  links : List LinkRec

namespace Network

/-- Lookup of `self.agents[agent_id]` (first record with the id). -/
def findAgent (net : Network) (id : ℕ) : Option Agent :=
  net.agents.find? (fun a => a.agent_id = id)

/-- `agent_id in self.agents` membership test. -/
def hasAgent (net : Network) (id : ℕ) : Bool :=
  net.agents.any (fun a => a.agent_id = id)

/-- Point update of the record stored under an id (Python mutates the
object in place). -/
def updAgent (net : Network) (id : ℕ) (f : Agent → Agent) : Network :=
  { net with agents := net.agents.map (fun a => if a.agent_id = id then f a else a) }

/-- `Network.add_link`: if both ids are present, add the connection on both
endpoints and append a fresh `Link` record, returning `true`; otherwise
change nothing and return `false`. -/
def add_link (net : Network) (id1 id2 : ℕ) (lt : String) : Network × Bool :=
  if net.hasAgent id1 ∧ net.hasAgent id2 then
    let net1 := net.updAgent id1 (fun a => a.add_connection id2 lt 1)
    let net2 := net1.updAgent id2 (fun a => a.add_connection id1 lt 1)
    ({ net2 with links := net2.links ++ [⟨id1, id2, 1, lt⟩] }, true)
  else
    (net, false)

/-- `Network.get_active_agents`: all non-arrested agents. -/
def get_active_agents (net : Network) : List Agent :=
  net.agents.filter (fun a => !a.is_arrested)

/-- `Network.get_active_agents_by_type`: active agents of a given role. -/
def get_active_agents_by_type (net : Network) (t : AgentType) : List Agent :=
  net.agents.filter (fun a => !a.is_arrested && a.agent_type = t)

end Network

/-- Default agent record, used only to totalize lookups that are
unreachable under the theorems' hypotheses. -/
def defaultAgent : Agent :=
  ⟨0, .trafficker, 0, 0, none, [], [], 0, false, none⟩

/-- Minimum of a list of rationals (`min(...)` in Python; 0 on the empty
list, which the source never passes). -/
def qListMin : List ℚ → ℚ
  | [] => 0
  | x :: xs => xs.foldl min x

/-- Maximum of a list of rationals (`max(...)` in Python; 0 on the empty
list, which the source never passes). -/
def qListMax : List ℚ → ℚ
  | [] => 0
  | x :: xs => xs.foldl max x

/-- Python `int(x)` on a float: truncation toward zero. -/
def truncQ (q : ℚ) : ℤ :=
  if 0 ≤ q then ⌊q⌋ else -⌊-q⌋

/-- The global economic state (`global_state` dict in `simulation.py`),
restricted to the keys read or written by the embedded operations.  The
Python keys `arrested%` and `arrested#` are spelled `arrested_pct` and
`arrested_num`.  Money and drug amounts are `ℚ`, counters `ℕ`, dose
counts `ℤ`. -/
structure GlobalState where
  disruption_mode : String
  arrested_mode : String
  target_of_disruption : String
  efficiency_vs_security : ℚ
  ticks_disruption : Option ℤ
  stop_acquire_days : ℚ
  stop_acquiring_until : Option ℚ
  arrested_pct : ℚ
  arrested_num : ℚ
  stock_drug : ℚ
  stock_drug_traffickers : ℚ
  stock_drug_packagers : ℚ
  stock_drug_retailers : ℚ
  target_stock_drug : ℚ
  wholesale_price : ℚ
  wholesale_price_now : ℚ
  retail_price : ℚ
  retail_price_now : ℚ
  price_per_dose : ℚ
  minw : ℚ
  maxw : ℚ
  minacq_ind : ℚ
  maxacq_ind : ℚ
  cash_box : ℚ
  revenues : ℚ
  expenses : ℚ
  weekly_profit : ℚ
  weekly_profit_now : ℚ
  cost_per_day : ℚ
  supply_costs : ℚ
  drug_package_of_traffickers : ℚ
  drug_package_of_packagers : ℚ
  drug_package_of_retailers : ℚ
  drug_max_of_packagers : ℚ
  gram_per_dose : ℚ
  unit_dose : ℤ
  unit_dose_min : ℤ
  unit_dose_max : ℤ
  unit_dose_now : ℤ
  retailers_share_of_profits : ℚ
  traffickers_share_of_profits : ℚ
  profit_of_retailers_max : ℚ
  profit_of_retailers : ℚ
  profit_of_traffickers : ℚ
  profit_of_packagers : ℚ
  profit_of_traffickers_min : ℚ
  profit_of_traffickers_max : ℚ
  profit_of_packagers_min : ℚ
  profit_of_packagers_max : ℚ
  n_acquisition : ℕ
  n_exhaust_traffickers : ℕ
  n_exhaust_packagers : ℕ
  n_exhaust_retailers : ℕ
  n_exhaust_retailers_90 : ℕ
  n_arrested_traffickers_minor : ℕ
  n_arrested_packagers_minor : ℕ
  n_arrested_retailers_minor : ℕ
  n_arrested_traffickers_major : ℕ
  n_arrested_packagers_major : ℕ
  n_arrested_retailers_major : ℕ
  n_active_traffickers : ℕ
  n_active_packagers : ℕ
  n_active_retailers : ℕ
  n_disruptions_obs : ℕ
  fm_traffickers_wage : ℚ
  fm_packagers_wage : ℚ
  fm_retailers_wage : ℚ
  arrested_retailers_family_wages : ℚ
  dead_members_family_wages : ℚ
  arrested_homicide_family_wages : ℚ
  n_weekly_profit_min : ℕ
  n_weekly_profit_max : ℕ
  n_weekly_profit_neg : ℕ
  arrested_retailers_family : ℚ
  dead_members_family : ℚ
  ticks_traffickers : ℤ
  ticks_packagers : ℤ
  ticks_retailers : ℤ

/-- One simulation instance: the network, the global state and the
orchestrator's `running` flag. -/
structure SimState where
  net : Network
  gs : GlobalState
  running : Bool

/-! ## Trafficker attractiveness laws (`agents.py` `attempt_acquisition`)

The real power `0.0001 ** e` is not rational; the function `pow4`
(standing for `e ↦ 0.0001 ** e`) is an explicit parameter of the
embedding, and every theorem holds for an arbitrary `pow4`. -/

/-- Success branch of `Trafficker.attempt_acquisition`: clamp up to 0.2,
otherwise add `0.0001 ** attractiveness`, capped at 1. -/
def successUp (pow4 : ℚ → ℚ) (a : ℚ) : ℚ :=
  if a < 1/5 then 1/5 else min 1 (a + pow4 a)

/-- Failure branch of `Trafficker.attempt_acquisition`: clamp down to 0.8,
otherwise subtract `0.0001 ** (1 - attractiveness)`, floored at 0.  The
inline block at `activities.py` lines 186-193 applies this identical law a
first time before `attempt_acquisition(success=False)` applies it again. -/
def failDown (pow4 : ℚ → ℚ) (a : ℚ) : ℚ :=
  if a > 4/5 then 4/5 else max 0 (a - pow4 (1 - a))

/-! ## Drug acquisition (`activities.py` `acquire_drug`) -/

/-- Random draws consumed by one `acquire_drug` call, as oracle inputs:
`rd1_gate` is the `random.randint` disruption-gate draw, `rd_gate` the
`random.uniform(0, 1.1)` security gate, `market_raw` the
`random.normalvariate(0, 1)` market draw, `price_noise` the
`random.normalvariate(0, 8.73 * 0.5)` price perturbation, and `trial i`
the `random.random() ** 3`-style product drawn for the `i`-th active
trafficker. -/
structure AcqOracle where
  rd1_gate : ℤ
  rd_gate : ℚ
  market_raw : ℚ
  price_noise : ℚ
  trial : ℕ → ℚ

/-- The scenario-3 start-up-months schedule (`scenario3_windows` dict). -/
def scenario3Windows (td : ℤ) : Option ℚ :=
  if td = 450 then some 90
  else if td = 630 then some 90
  else if td = 810 then some 60
  else if td = 990 then some 60
  else if td = 1170 then some 30
  else if td = 1350 then some 30
  else if td = 1530 then some 0
  else none

/-- Disruption-window gating of `acquire_drug` (lines 49-78): inside the
window a first-half arrest-probability gate and a security-weighted gate
can each veto acquisition.  (The `arrested#` branch's `upper` bound only
shapes the distribution of the `randint` draw, which is an oracle here.) -/
def acquireGateVeto (o : AcqOracle) (gs : GlobalState) (tick : ℚ) (stop : ℚ) : Bool :=
  match gs.ticks_disruption with
  | none => false
  | some td0 =>
      let td : ℚ := td0
      let in_window : Bool := decide (td < tick ∧ tick ≤ td + stop)
      let first_half : Bool := decide (td < tick ∧ tick ≤ td + stop / 2)
      if in_window then
        if gs.arrested_mode = "arrested%" then
          if gs.arrested_pct ≠ 0 ∧ first_half ∧ ((o.rd1_gate : ℚ) ≤ gs.arrested_pct) then
            true
          else
            decide (o.rd_gate ≤ 1 - gs.efficiency_vs_security)
        else
          if gs.arrested_num ≠ 0 ∧ first_half ∧ ((o.rd1_gate : ℚ) ≤ gs.arrested_num) then
            true
          else
            decide (o.rd_gate ≤ 1 - gs.efficiency_vs_security)
      else false

/-- One active trafficker's acquisition trial (body of the `for trafficker
in traffickers` loop, lines 142-194).  The accumulator carries the
network, the globals, the loop-local `cash_box` snapshot read once before
the loop (the source never refreshes it), and the loop-local
`n_acquisition`.  Each trafficker is touched only by its own iteration, so
iterating over the records captured at loop entry is equivalent to the
source's iteration over live objects. -/
def acquireTrial (pow4 : ℚ → ℚ) (rd : ℚ) (acq_index wpn dp : ℚ)
    (acc : Network × GlobalState × ℚ × ℕ) (t : Agent) :
    Network × GlobalState × ℚ × ℕ :=
  let (net, gs, cash0, nacq) := acc
  if acq_index = 999 then acc
  else if t.attractiveness / 100 + rd > acq_index then
    -- successful acquisition: attempt_acquisition(success=True), then buy
    let cost := wpn * dp
    if cost ≤ cash0 * (1/2) then
      -- full acquisition
      (net.updAgent t.agent_id (fun x =>
         { x with attractiveness := successUp pow4 x.attractiveness,
                  drug := x.drug + dp }),
       { gs with stock_drug_traffickers := gs.stock_drug_traffickers + dp,
                 stock_drug := gs.stock_drug + dp,
                 cash_box := cash0 - cost,
                 expenses := gs.expenses + cost },
       cash0, nacq + 1)
    else
      -- partial acquisition with available cash
      let available := cash0 * (1/2) / wpn
      (net.updAgent t.agent_id (fun x =>
         { x with attractiveness := successUp pow4 x.attractiveness,
                  drug := x.drug + available }),
       { gs with stock_drug_traffickers := gs.stock_drug_traffickers + available,
                 stock_drug := gs.stock_drug + available,
                 expenses := gs.expenses + cash0 * (1/2),
                 cash_box := cash0 * (1/2) },
       cash0, nacq)
  else
    -- failed acquisition: inline downward step (lines 186-193), then
    -- attempt_acquisition(success=False) applies the same law again
    (net.updAgent t.agent_id (fun x =>
       { x with attractiveness := failDown pow4 (failDown pow4 x.attractiveness) }),
     gs, cash0, nacq)

/-- `acquire_drug`: monthly wholesale acquisition by traffickers. -/
def acquire_drug (pow4 : ℚ → ℚ) (o : AcqOracle) (tick : ℤ) (s : SimState) : SimState :=
  if tick % 30 ≠ 0 then s else
  -- scenario3 start-up-months schedule
  let gs0 := s.gs
  let gs1 :=
    if gs0.disruption_mode = "scenario3" then
      match gs0.ticks_disruption with
      | some td =>
          match scenario3Windows td with
          | some d => { gs0 with stop_acquire_days := d }
          | none => gs0
      | none => gs0
    else gs0
  if acquireGateVeto o gs1 (tick : ℚ) gs1.stop_acquire_days then
    { s with gs := gs1 }
  else
    -- stock-drug-index
    let target_stock := gs1.target_stock_drug
    let current_stock := gs1.stock_drug
    let stock_drug_index : ℚ :=
      if 0 < target_stock then min 1 (current_stock / target_stock) else 0
    -- market-condition-index, weighted by efficiency-vs-security
    let market_condition_index :=
      max 0 (min 1 ((o.market_raw + 3) / 6)) * (1 - gs1.efficiency_vs_security)
    -- realized wholesale price and min/max tracking
    let wpn := gs1.wholesale_price + o.price_noise
    let gs2 := { gs1 with minw := min gs1.minw wpn, maxw := max gs1.maxw wpn,
                          wholesale_price_now := wpn }
    -- wholesale-price-index
    let min_price := gs2.wholesale_price - 10
    let max_price := gs2.wholesale_price + 10
    let price_range := max_price - min_price
    let wholesale_price_index :=
      max 0 (min 1 (if 0 < price_range then (wpn - min_price) / price_range else 1/2))
    let acq0 := stock_drug_index * market_condition_index * wholesale_price_index
    let gs3 := { gs2 with minacq_ind := min gs2.minacq_ind acq0,
                          maxacq_ind := max gs2.maxacq_ind acq0 }
    -- if warehouses too full, signal: do not acquire
    let acq_index := if current_stock ≥ target_stock * 2 then (999 : ℚ) else acq0
    let traffickers := s.net.get_active_agents_by_type .trafficker
    let cash0 := gs3.cash_box
    let dp := gs3.drug_package_of_traffickers
    let init : Network × GlobalState × ℚ × ℕ := (s.net, gs3, cash0, gs3.n_acquisition)
    let step := fun (acc : Network × GlobalState × ℚ × ℕ) (p : ℕ × Agent) =>
      acquireTrial pow4 (o.trial p.1) acq_index wpn dp acc p.2
    let (net4, gs4, _, nacq) := traffickers.enum.foldl step init
    let gs5 := { gs4 with n_acquisition := nacq }
    let gs6 :=
      if gs5.stock_drug_traffickers < 0 then
        { gs5 with stock_drug_traffickers := 0 }
      else gs5
    { s with net := net4, gs := gs6 }

/-! ## Tiered transfer (`activities.py` `package_drug` and helpers) -/

/-- Degree-based visibility bounds computed once per transfer stage
(lines 269-282 / 388-401): min and max of `degree / (total - 1)` over the
active agents, degenerating to `(0, 1)` when the range is zero and to
`(1, 1)` when at most one agent is active. -/
def visBounds (net : Network) : ℚ × ℚ :=
  let active := net.get_active_agents
  let total := active.length
  if total ≤ 1 then (1, 1)
  else
    let vis_values := active.map (fun a => (a.get_degree : ℚ) / ((total : ℚ) - 1))
    let min_vis := qListMin vis_values
    let max_vis := qListMax vis_values
    if max_vis - min_vis = 0 then (0, 1) else (min_vis, max_vis)

/-- Familiarity bounds across the available downstream candidates
(lines 292-301 / 407-416): start from `(0, 1)` and fold in every positive
familiarity of an available candidate. -/
def famBounds (src : Agent) (candidates : List Agent) : ℚ × ℚ :=
  candidates.foldl
    (fun mf c =>
      if c.availability.getD 0 ≤ 0 then mf
      else
        let fam := src.get_connection_familiarity c.agent_id
        if fam > 0 then (min mf.1 fam, max mf.2 fam) else mf)
    (0, 1)

/-- Trust-appeal score of one downstream candidate (lines 303-336 /
421-449), given the stage-wide visibility bounds and the source's
familiarity bounds. -/
def trustAppeal (eta : ℚ) (total : ℕ) (min_vis max_vis min_fam max_fam : ℚ)
    (src : Agent) (c : Agent) : ℚ :=
  let fam := src.get_connection_familiarity c.agent_id
  let ta0 : ℚ := if max_fam - min_fam = 0 then 1 else (fam - min_fam) / (max_fam - min_fam)
  let vis_raw : ℚ := if total > 1 then (c.get_degree : ℚ) / ((total : ℚ) - 1) else 1
  let visibility_norm : ℚ :=
    if max_vis - min_vis = 0 then 1 else (vis_raw - min_vis) / (max_vis - min_vis)
  let trust := (ta0 + visibility_norm) / 2 * (1 - eta)
  let appeal := (c.attractiveness + visibility_norm) / 2 * eta
  trust + appeal

/-- Selection of the best available downstream candidate: Python keeps the
first candidate strictly exceeding the running best, starting from -1. -/
def bestCandidate (eta : ℚ) (total : ℕ) (min_vis max_vis min_fam max_fam : ℚ)
    (src : Agent) (candidates : List Agent) : Option Agent :=
  (candidates.foldl
    (fun best c =>
      if c.availability.getD 0 ≤ 0 then best
      else
        let score := trustAppeal eta total min_vis max_vis min_fam max_fam src c
        if score > best.2 then (some c, score) else best)
    ((none : Option Agent), (-1 : ℚ))).1

/-- Familiarity bounds plus best-candidate selection over the live
records of the candidate ids, as both transfer loops perform them.
Candidates are re-read from the current network because the source reads
live objects whose availability and degree change during the stage. -/
def stageBest (eta : ℚ) (total : ℕ) (min_vis max_vis : ℚ) (net : Network)
    (src : Agent) (candIds : List ℕ) : Option Agent :=
  let recs := candIds.filterMap net.findAgent
  let (min_fam, max_fam) := famBounds src recs
  bestCandidate eta total min_vis max_vis min_fam max_fam src recs

/-- Body of the `for trafficker in traffickers` loop of
`_transfer_trafficker_to_packagers` (lines 284-367), acting on the
trafficker with id `tid`. -/
def transferTPBody (eta dp dmaxp : ℚ) (total : ℕ) (min_vis max_vis : ℚ)
    (packagerIds : List ℕ) (acc : Network × GlobalState) (tid : ℕ) :
    Network × GlobalState :=
  let (net, gs) := acc
  let t := (net.findAgent tid).getD defaultAgent
  if t.drug ≤ 0 then acc
  else
    match stageBest eta total min_vis max_vis net t packagerIds with
    | none => acc
    | some b =>
        let transfer_amount := min dp t.drug
        let net := net.updAgent b.agent_id (fun pb => { pb with drug := pb.drug + transfer_amount })
        let net := net.updAgent tid (fun tt => { tt with drug := tt.drug - transfer_amount })
        let net := net.updAgent tid (fun tt => tt.add_connection b.agent_id "trafficker-packager" 1)
        let net := net.updAgent b.agent_id (fun pb => pb.add_connection tid "trafficker-packager" 1)
        let gs := { gs with
          stock_drug_traffickers := gs.stock_drug_traffickers - transfer_amount,
          stock_drug_packagers := gs.stock_drug_packagers + transfer_amount }
        let gs :=
          if gs.stock_drug_traffickers < 0 then { gs with stock_drug_traffickers := 0 } else gs
        let net := net.updAgent tid (fun tt => if tt.drug < 0 then { tt with drug := 0 } else tt)
        let net := net.updAgent b.agent_id (fun pb =>
          if pb.drug ≥ dmaxp then { pb with availability := some 0 }
          else { pb with availability := some 1 })
        (net, gs)

/-- `_transfer_trafficker_to_packagers`. -/
def transferTP (dmaxp : ℚ) (s : SimState) : SimState :=
  let traffickerIds := (s.net.get_active_agents_by_type .trafficker).map (·.agent_id)
  let packagerIds := (s.net.get_active_agents_by_type .packager).map (·.agent_id)
  if packagerIds = [] then s
  else
    let dp := s.gs.drug_package_of_packagers
    let total := s.net.get_active_agents.length
    let (min_vis, max_vis) := visBounds s.net
    let (net1, gs1) := traffickerIds.foldl
      (transferTPBody s.gs.efficiency_vs_security dp dmaxp total min_vis max_vis packagerIds)
      (s.net, s.gs)
    { s with net := net1, gs := gs1 }

/-- One transfer of the `while` loop of `_transfer_packagers_to_retailers`
(lines 460-482): move `min(drug_package, packager.drug)` from the packager
`pid` to the chosen retailer `bid`, update familiarity, stocks, clamps and
the retailer's availability. -/
def prStep (dp dmr : ℚ) (pid bid : ℕ) (acc : Network × GlobalState) :
    Network × GlobalState :=
  let (net, gs) := acc
  let pk := (net.findAgent pid).getD defaultAgent
  let transfer_amount := min dp pk.drug
  let net := net.updAgent bid (fun r => { r with drug := r.drug + transfer_amount })
  let net := net.updAgent pid (fun p => { p with drug := p.drug - transfer_amount })
  let net := net.updAgent pid (fun p => p.add_connection bid "packager-retailer" 1)
  let net := net.updAgent bid (fun r => r.add_connection pid "packager-retailer" 1)
  let gs := { gs with
    stock_drug_packagers := gs.stock_drug_packagers - transfer_amount,
    stock_drug_retailers := gs.stock_drug_retailers + transfer_amount }
  let gs :=
    if gs.stock_drug_packagers < 0 then { gs with stock_drug_packagers := 0 } else gs
  let net := net.updAgent pid (fun p => if p.drug < 0 then { p with drug := 0 } else p)
  let net := net.updAgent bid (fun r =>
    if r.drug ≥ dmr then { r with availability := some 0 }
    else { r with availability := some 1 })
  (net, gs)

/-- The `while num_packages * drug_package < target_amount and
packager.drug > 0` loop of `_transfer_packagers_to_retailers`
(lines 458-487), recursing on `fuel`.  The source loop terminates because
the package count is bounded by `target_amount / drug_package` and the
packager drains; `fuel` makes the recursion structural, and every theorem
holds for every fuel. -/
def transferPRLoop (dp target dmr : ℚ) (pid bid : ℕ) :
    ℕ → ℕ → Network × GlobalState → Network × GlobalState
  | 0, _, acc => acc
  | fuel + 1, num_packages, (net, gs) =>
      let pk := (net.findAgent pid).getD defaultAgent
      if (num_packages : ℚ) * dp < target ∧ pk.drug > 0 then
        let (net, gs) := prStep dp dmr pid bid (net, gs)
        let pk2 := (net.findAgent pid).getD defaultAgent
        if pk2.drug ≤ 0 then (net, gs)
        else transferPRLoop dp target dmr pid bid fuel (num_packages + 1) (net, gs)
      else (net, gs)

/-- Body of the `for packager in packagers` loop of
`_transfer_packagers_to_retailers` (lines 403-487). -/
def transferPRBody (eta dp dmr target : ℚ) (total : ℕ) (min_vis max_vis : ℚ)
    (retailerIds : List ℕ) (fuel : ℕ) (acc : Network × GlobalState) (pid : ℕ) :
    Network × GlobalState :=
  let (net, _) := acc
  let p := (net.findAgent pid).getD defaultAgent
  if p.drug ≤ 0 then acc
  else
    match stageBest eta total min_vis max_vis net p retailerIds with
    | none => acc
    | some b => transferPRLoop dp target dmr pid b.agent_id fuel 0 acc

/-- `_transfer_packagers_to_retailers`. -/
def transferPR (dp dmr : ℚ) (fuel : ℕ) (s : SimState) : SimState :=
  let packagerIds := (s.net.get_active_agents_by_type .packager).map (·.agent_id)
  let retailerIds := (s.net.get_active_agents_by_type .retailer).map (·.agent_id)
  if retailerIds = [] then s
  else
    let eta := s.gs.efficiency_vs_security
    let target : ℚ :=
      ((s.gs.unit_dose_min : ℚ) + ((s.gs.unit_dose_max : ℚ) - (s.gs.unit_dose_min : ℚ)) * eta)
        * s.gs.gram_per_dose
    let total := s.net.get_active_agents.length
    let (min_vis, max_vis) := visBounds s.net
    let (net1, gs1) := packagerIds.foldl
      (transferPRBody eta dp dmr target total min_vis max_vis retailerIds fuel)
      (s.net, s.gs)
    { s with net := net1, gs := gs1 }

/-- Random draws of `package_drug`: the `update_attractiveness` variation
drawn for each packager and retailer, keyed by agent id. -/
structure PackOracle where
  variation : ℕ → ℚ

/-- `Packager.update_availability` / `Retailer.update_availability`
followed by `update_attractiveness` with oracle variation (the source
draws `uniform(-0.1 a, 0.1 a)`). -/
def updateAvailAttr (dmax : ℚ) (v : ℚ) (a : Agent) : Agent :=
  let a := if a.drug ≥ dmax then { a with availability := some 0 }
           else { a with availability := some 1 }
  { a with attractiveness := max (1/10) (min 1 (a.attractiveness + v)) }

/-- `package_drug`: daily packaging and delivery, traffickers to packagers
then packagers to retailers, with exhaustion counters on empty tiers. -/
def package_drug (o : PackOracle) (fuel : ℕ) (s : SimState) : SimState :=
  let packagerIds := (s.net.get_active_agents_by_type .packager).map (·.agent_id)
  let dmaxp := s.gs.drug_max_of_packagers
  let net1 := packagerIds.foldl
    (fun n id => n.updAgent id (updateAvailAttr dmaxp (o.variation id))) s.net
  let s1 : SimState := { s with net := net1 }
  let s2 :=
    if s1.gs.stock_drug_traffickers ≤ 0 then
      { s1 with gs := { s1.gs with
          n_exhaust_traffickers := s1.gs.n_exhaust_traffickers + 1 } }
    else transferTP dmaxp s1
  let retailerIds := (s2.net.get_active_agents_by_type .retailer).map (·.agent_id)
  let denom := s2.gs.price_per_dose * s2.gs.retailers_share_of_profits
  let dmr : ℚ :=
    if 0 < denom then s2.gs.profit_of_retailers_max / denom * s2.gs.gram_per_dose else 0
  let net2 := retailerIds.foldl
    (fun n id => n.updAgent id (updateAvailAttr dmr (o.variation id))) s2.net
  let s3 : SimState := { s2 with net := net2 }
  let dpr := s3.gs.drug_package_of_retailers
  if s3.gs.stock_drug_packagers < dpr then
    { s3 with gs := { s3.gs with n_exhaust_packagers := s3.gs.n_exhaust_packagers + 1 } }
  else transferPR dpr dmr fuel s3

/-! ## Retail sale (`activities.py` `sell_drug`) -/

/-- Random draws of `sell_drug`: the two `random.randrange` span draws
that perturb the daily dose count. -/
structure SellOracle where
  span_draw1 : ℕ
  span_draw2 : ℕ

/-- Key `availability * drug` used to pick the busiest retailer. -/
def retailKey (r : Agent) : ℚ :=
  (r.availability.getD 0 : ℤ) * r.drug

/-- Python `max(retailers, key=..., default=None)`: first maximal element,
`none` on the empty list. -/
def maxByKey (rs : List Agent) : Option Agent :=
  rs.foldl
    (fun best r =>
      match best with
      | none => some r
      | some b => if retailKey r > retailKey b then some r else some b)
    none

/-- The dose-selling `while n_sold < unit_dose_now` loop of `sell_drug`
(lines 534-578), recursing on the remaining dose count.  The retailer
objects are live: their current records are re-read from the network at
every pick; the loop-local `stock_drug_retailers` and `cash_box` are
carried alongside. -/
def sellLoop (gpd ppd share profit_max wpn udn : ℚ) (retailerIds : List ℕ) :
    ℤ → ℕ → Network → ℚ → ℚ → GlobalState → Network × ℚ × ℚ × GlobalState
  | _, 0, net, stock, cash, gs => (net, stock, cash, gs)
  | n_sold, fuel + 1, net, stock, cash, gs =>
      let n1 := n_sold + 1
      if stock ≤ 0 then (net, stock, cash, gs)
      else
        match maxByKey (retailerIds.filterMap net.findAgent) with
        | none => (net, stock, cash, gs)
        | some best =>
            if best.drug ≥ gpd ∧ best.availability.getD 0 > 0 then
              let net := net.updAgent best.agent_id (fun x =>
                let x1 := { x with drug := x.drug - gpd, profit := x.profit + ppd * share }
                if x1.profit ≥ profit_max then { x1 with availability := some 0 } else x1)
              let stock := stock - gpd
              let cash := cash + ppd - ppd * share
              let gs := { gs with
                revenues := gs.revenues + ppd - ppd * share,
                weekly_profit_now := gs.weekly_profit_now + ppd - ppd * share - gpd * wpn }
              sellLoop gpd ppd share profit_max wpn udn retailerIds n1 fuel net stock cash gs
            else
              -- exhausted retailers mid-day
              let gs := { gs with n_exhaust_retailers := gs.n_exhaust_retailers + 1 }
              let gs :=
                if (n1 : ℚ) < udn * (9/10) then
                  { gs with n_exhaust_retailers_90 := gs.n_exhaust_retailers_90 + 1 }
                else gs
              (net, stock, cash, gs)

/-- `sell_drug`: daily retail sales.  The final lines write the loop-local
retailer stock back and recompute `stock_drug` as the sum of the three
tier stocks. -/
def sell_drug (o : SellOracle) (s : SimState) : SimState :=
  let retailerIds := (s.net.get_active_agents_by_type .retailer).map (·.agent_id)
  -- reset daily profits and availability
  let net0 := retailerIds.foldl
    (fun n id => n.updAgent id (fun r => { r with profit := 0, availability := some (1 : ℤ) }))
    s.net
  let gs := s.gs
  -- randomized dose count
  let span1 : ℤ := max 0 (gs.unit_dose_min - gs.unit_dose)
  let span2 : ℤ := max 0 (gs.unit_dose_max - gs.unit_dose)
  let udn : ℤ := gs.unit_dose
    + (if span1 > 0 then (o.span_draw1 : ℤ) % span1 else 0)
    + (if span2 > 0 then (o.span_draw2 : ℤ) % span2 else 0)
  let gs1 := { gs with unit_dose_now := udn }
  if retailerIds.isEmpty then { s with net := net0, gs := gs1 }
  else
    let ppd := gs1.price_per_dose
    let share := gs1.retailers_share_of_profits
    let profit_max := gs1.profit_of_retailers_max
    let ppr0 : ℚ :=
      if retailerIds.length > 0 then
        (udn : ℚ) * ppd * share / (retailerIds.length : ℚ)
      else 0
    let ppr := min ppr0 profit_max
    let gs2 := { gs1 with profit_of_retailers := ppr }
    let gpd := gs2.gram_per_dose
    let wpn := gs2.wholesale_price_now
    let (net1, stock1, cash1, gs3) :=
      sellLoop gpd ppd share profit_max wpn (udn : ℚ) retailerIds 0 udn.toNat
        net0 gs2.stock_drug_retailers gs2.cash_box gs2
    let gs4 := { gs3 with
      stock_drug_retailers := stock1,
      stock_drug := gs3.stock_drug_traffickers + gs3.stock_drug_packagers + stock1,
      cash_box := cash1 }
    { s with net := net1, gs := gs4 }

/-! ## Law enforcement (`law_enforcement.py`) -/

/-- `_arrest_agent`: mark the agent arrested with the arrest tick. -/
def arrestAgent (net : Network) (id : ℕ) (tick : ℤ) : Network :=
  net.updAgent id (fun a => { a with is_arrested := true, arrest_date := some tick })

/-- `_update_arrest_counts` for minor arrests. -/
def updateMinorCounts (gs : GlobalState) (t : AgentType) : GlobalState :=
  match t with
  | .trafficker => { gs with n_arrested_traffickers_minor := gs.n_arrested_traffickers_minor + 1 }
  | .packager => { gs with n_arrested_packagers_minor := gs.n_arrested_packagers_minor + 1 }
  | .retailer => { gs with n_arrested_retailers_minor := gs.n_arrested_retailers_minor + 1 }

/-- NetLogo-style fm-wage bump applied by a minor arrest. -/
def bumpFmWage (gs : GlobalState) (t : AgentType) : GlobalState :=
  match t with
  | .trafficker => { gs with fm_traffickers_wage := gs.fm_traffickers_wage + 1 }
  | .packager => { gs with fm_packagers_wage := gs.fm_packagers_wage + 1 }
  | .retailer => { gs with fm_retailers_wage := gs.fm_retailers_wage + 1 }

/-- `_recalculate_drug_stocks`: recompute the three tier stocks from the
active agents and set `stock_drug` to their sum. -/
def recalculateDrugStocks (s : SimState) : SimState :=
  let active := s.net.get_active_agents
  let st := (active.filter (fun a => a.agent_type = .trafficker)).foldl (fun q a => q + a.drug) 0
  let sp := (active.filter (fun a => a.agent_type = .packager)).foldl (fun q a => q + a.drug) 0
  let sr := (active.filter (fun a => a.agent_type = .retailer)).foldl (fun q a => q + a.drug) 0
  { s with gs := { s.gs with
      stock_drug_traffickers := st,
      stock_drug_packagers := sp,
      stock_drug_retailers := sr,
      stock_drug := st + sp + sr } }

/-- Random draws of `perform_minor_arrests`: the piecewise-range uniform
draw and the `random.choice` pick (modelled as an index into the active
list, taken modulo its length). -/
structure MinorOracle where
  rd : ℚ
  choice : ℕ

/-- `perform_minor_arrests`: on day 15 of each month, arrest at most one
uniformly chosen active member with an `efficiency_vs_security`-derived
probability, zero their drug and recalculate the stocks. -/
def perform_minor_arrests (o : MinorOracle) (tick : ℤ) (s : SimState) : SimState :=
  if tick % 30 ≠ 15 then s
  else if o.rd > 1 - s.gs.efficiency_vs_security then
    let active := s.net.get_active_agents
    match active.get? (o.choice % active.length) with
    | none => s
    | some arrested =>
        let net1 := arrestAgent s.net arrested.agent_id tick
        let gs1 := updateMinorCounts s.gs arrested.agent_type
        let gs2 := bumpFmWage gs1 arrested.agent_type
        let net2 := net1.updAgent arrested.agent_id (fun a => { a with drug := 0 })
        recalculateDrugStocks { s with net := net2, gs := gs2 }
  else s

/-- `_confiscate_drugs`: zero the drug of the arrested agents, deduct the
confiscated total from `stock_drug` (floored at 0), then recalculate the
tier stocks. -/
def confiscateDrugs (ids : List ℕ) (s : SimState) : SimState :=
  let total := ids.foldl
    (fun q id => q + ((s.net.findAgent id).getD defaultAgent).drug) 0
  let net1 := ids.foldl (fun n id => n.updAgent id (fun a => { a with drug := 0 })) s.net
  let gs1 := { s.gs with stock_drug := max 0 (s.gs.stock_drug - total) }
  recalculateDrugStocks { s with net := net1, gs := gs1 }

/-- Calibration constants from `config.py` used by `perform_major_arrest`
and recruitment. -/
def TRAFFICKERS_2008 : ℤ := 5
def TRAFFICKERS_2010 : ℤ := 16
def PACKAGERS_2008 : ℤ := 5
def PACKAGERS_2010 : ℤ := 13
def RETAILERS_2008 : ℤ := 34
def RETAILERS_2010 : ℤ := 37

/-- Random draws and transcendental values of `perform_major_arrest`:
`rd` is the `random.random()` draw, `sample` decides which target ids
`random.sample` picks, and `ticks_tr`/`ticks_pa`/`ticks_re` carry the
`math.pow`-derived growth-curve resets (real powers, abstracted as oracle
inputs). -/
structure MajorOracle where
  rd : ℚ
  sample : List ℕ
  ticks_tr : ℤ
  ticks_pa : ℤ
  ticks_re : ℤ

/-- Number of members `perform_major_arrest` tries to arrest
(lines 108-152), with Python `int()` truncation. -/
def majorArrestCount (o : MajorOracle) (gs : GlobalState) (pct : ℚ) (nTargets : ℕ) : ℤ :=
  let eta := gs.efficiency_vs_security
  if gs.disruption_mode = "scenario1" then
    if gs.arrested_mode = "arrested%" then truncQ (pct / 100 * (nTargets : ℚ))
    else truncQ gs.arrested_num
  else
    if gs.arrested_mode = "arrested%" then
      let modified :=
        if eta < 3/5 then
          let rd := 10 + o.rd * 10
          pct - pct * rd / 100
        else if eta = 3/5 then
          let rd := -5 + o.rd * 10
          pct + pct * rd / 100
        else
          let rd := 10 + o.rd * 10
          pct + pct * rd / 100
      truncQ (modified / 100 * (nTargets : ℚ))
    else
      let an := gs.arrested_num
      let modified :=
        if eta < 3/5 then
          let rd := 10 + o.rd * 10
          an - an * rd / 100
        else if eta = 3/5 then
          let rd := -5 + o.rd * 10
          an + an * rd / 100
        else
          let rd := 10 + o.rd * 10
          an + an * rd / 100
      truncQ modified

/-- Wage multiplier table keyed by the observed disruption count
(lines 244-253). -/
def fmMultiplier (n : ℕ) : ℚ :=
  if n = 2 then 15 else if n = 3 then 20 else if n = 4 then 25
  else if n = 5 then 30 else 1

/-- `perform_major_arrest`: arrest a computed share of the target group,
confiscate their drugs, update the family-support and growth bookkeeping,
and open the disruption window. -/
def perform_major_arrest (o : MajorOracle) (tick : ℤ) (pct : ℚ) (s : SimState) : SimState :=
  let targets :=
    if s.gs.target_of_disruption = "traffickers" then
      s.net.get_active_agents_by_type .trafficker
    else if s.gs.target_of_disruption = "packagers" then
      s.net.get_active_agents_by_type .packager
    else if s.gs.target_of_disruption = "retailers" then
      s.net.get_active_agents_by_type .retailer
    else s.net.get_active_agents
  if targets.isEmpty then s
  else
    let ntra := (s.net.get_active_agents_by_type .trafficker).length
    let npac := (s.net.get_active_agents_by_type .packager).length
    let nret := (s.net.get_active_agents_by_type .retailer).length
    let gsA := { s.gs with
      arrested_retailers_family := (nret : ℚ),
      dead_members_family := (s.net.get_active_agents.length : ℚ) }
    let count0 := majorArrestCount o gsA pct targets.length
    let count := if count0 > (targets.length : ℤ) then (targets.length : ℤ) else count0
    -- random.sample: the chosen subset of the target group is decided by
    -- the oracle id list
    let s1 : SimState :=
      if count > 0 then
        let chosen := (targets.filter (fun a => a.agent_id ∈ o.sample)).map (·.agent_id)
        let netArr := chosen.foldl (fun n id => arrestAgent n id tick) s.net
        confiscateDrugs chosen { s with net := netArr, gs := gsA }
      else { s with gs := gsA }
    let curT := (s1.net.get_active_agents_by_type .trafficker).length
    let curP := (s1.net.get_active_agents_by_type .packager).length
    let curR := (s1.net.get_active_agents_by_type .retailer).length
    let curTotal := s1.net.get_active_agents.length
    let gsB := s1.gs
    let gsB := if ntra > curT then
        { gsB with n_arrested_traffickers_major := gsB.n_arrested_traffickers_major + (ntra - curT) }
      else gsB
    let gsB := if npac > curP then
        { gsB with n_arrested_packagers_major := gsB.n_arrested_packagers_major + (npac - curP) }
      else gsB
    let gsB := if nret > curR then
        { gsB with n_arrested_retailers_major := gsB.n_arrested_retailers_major + (nret - curR) }
      else gsB
    let dmf := gsB.dead_members_family
    let arf := gsB.arrested_retailers_family
    let gsB := { gsB with
      dead_members_family := dmf * (1/10) + (dmf - (curTotal : ℚ)) - (arf - (curR : ℚ)),
      arrested_retailers_family := arf * (56/100) + (arf - (curR : ℚ)) }
    let s2 := recalculateDrugStocks { s1 with gs := gsB }
    -- growth-curve resets: the `math.pow` expressions are oracle inputs;
    -- the y-range guards are the config constants
    let gsC := s2.gs
    let gsC := if TRAFFICKERS_2010 - TRAFFICKERS_2008 ≠ 0 then
        { gsC with ticks_traffickers := o.ticks_tr } else gsC
    let gsC := if PACKAGERS_2010 - PACKAGERS_2008 ≠ 0 then
        { gsC with ticks_packagers := o.ticks_pa } else gsC
    let gsC := if RETAILERS_2010 - RETAILERS_2008 ≠ 0 then
        { gsC with ticks_retailers := o.ticks_re } else gsC
    let fm := fmMultiplier gsC.n_disruptions_obs
    let gsC :=
      if gsC.n_disruptions_obs > 1 then
        let gsC := if ntra > curT then
            { gsC with fm_traffickers_wage := gsC.fm_traffickers_wage + ((ntra - curT : ℕ) : ℚ) * fm }
          else gsC
        let gsC := if npac > curP then
            { gsC with fm_packagers_wage := gsC.fm_packagers_wage + ((npac - curP : ℕ) : ℚ) * fm }
          else gsC
        if nret > curR then
          { gsC with fm_retailers_wage := gsC.fm_retailers_wage + ((nret - curR : ℕ) : ℚ) * fm }
        else gsC
      else gsC
    let gsC := { gsC with
      ticks_disruption := some tick,
      stop_acquiring_until := some ((tick : ℚ) + gsC.stop_acquire_days) }
    { s2 with gs := gsC }

/-- Random draw of `_account_for_expenses`: the weekly-profit fluctuation
`uniform(-0.1 x, 0.1 x)`. -/
structure ExpenseOracle where
  fluctuation : ℚ

/-- `_account_for_expenses` (`simulation.py`): weekly costs, wages,
family-support liabilities and bounded weekly profit. -/
def account_for_expenses (o : ExpenseOracle) (s : SimState) : SimState :=
  let nT := (s.net.get_active_agents_by_type .trafficker).length
  let nP := (s.net.get_active_agents_by_type .packager).length
  let nR := (s.net.get_active_agents_by_type .retailer).length
  let gs := s.gs
  let weekly_profit_now := gs.weekly_profit_now
  let weekly_cost := gs.cost_per_day * 7
  let gs := { gs with cash_box := gs.cash_box - weekly_cost,
                      expenses := gs.expenses + weekly_cost }
  let wage_tp := (gs.profit_of_traffickers * (nT : ℚ) + gs.profit_of_packagers * (nP : ℚ)) * 7
  let gs := { gs with cash_box := gs.cash_box - wage_tp, expenses := gs.expenses + wage_tp }
  let base_r := max ((nR : ℚ) * (56/100)) gs.arrested_retailers_family
  let rfw := base_r * 225 + gs.fm_retailers_wage * 225
  let gs := { gs with arrested_retailers_family_wages := rfw,
                      cash_box := gs.cash_box - rfw, expenses := gs.expenses + rfw }
  let base_d := max (((nT + nP + nR : ℕ) : ℚ) * (1/10)) gs.dead_members_family
  let dmw := base_d * 500 + (gs.fm_traffickers_wage + gs.fm_packagers_wage) * 500
  let gs := { gs with dead_members_family_wages := dmw,
                      cash_box := gs.cash_box - dmw, expenses := gs.expenses + dmw }
  let hfw := gs.arrested_homicide_family_wages
  let gs := { gs with cash_box := gs.cash_box - hfw, expenses := gs.expenses + hfw }
  let wp_max := gs.weekly_profit
  let wp_min := gs.weekly_profit * (9/10)
  let wpn := weekly_profit_now + o.fluctuation
  let (gs, wpn) :=
    if wpn > wp_max then
      ({ gs with n_weekly_profit_max := gs.n_weekly_profit_max + 1 }, wp_max)
    else if wpn < wp_min then
      ({ gs with n_weekly_profit_min := gs.n_weekly_profit_min + 1 }, wp_min)
    else (gs, wpn)
  let gs := if wpn < 0 then { gs with n_weekly_profit_neg := gs.n_weekly_profit_neg + 1 } else gs
  { s with gs := { gs with weekly_profit_now := 0 } }

/-! ## Monthly parameter update and recruitment
(`simulation.py` `_update_parameters`) -/

/-- Price constants from `config.py` used by the yearly price switch. -/
def WHOLESALE_PRICE_2009 : ℚ := 4068/100
def WHOLESALE_PRICE_2010 : ℚ := 439/10
def RETAIL_PRICE_2009 : ℚ := 7047/100
def RETAIL_PRICE_2010 : ℚ := 7536/100
def TICKS_PER_YEAR : ℤ := 365
def START_UP_MONTHS : ℚ := 2

/-- Random draws and `math.log`-derived values of `_update_parameters`:
the pause-check draws, the `round(log_growth(...))` recruitment targets
and parameter values (real logarithms, abstracted as oracle inputs), the
recruitment probability draws, the packager coin flip, the
`random.choice` partner indices, and the fresh ids and initial
attractiveness of the recruits. -/
structure ParamsOracle where
  rd1_pause : ℤ
  rd_pause : ℚ
  y_traffickers : ℤ
  y_packagers : ℤ
  y_retailers : ℤ
  rd_tr : ℚ
  rd_pa : ℚ
  rd_re : ℚ
  coin : Bool
  partner_tr : ℕ
  partner_pa : ℕ
  partner_re : ℕ
  id_tr : ℕ
  id_pa : ℕ
  id_re : ℕ
  attr_tr : ℚ
  attr_pa : ℚ
  attr_re : ℚ
  unit_dose_v : ℤ
  unit_dose_min_v : ℤ
  unit_dose_max_v : ℤ
  cost_per_day_v : ℤ
  weekly_profit_v : ℤ

/-- A freshly constructed member (`Agent.__init__` plus the role
subclass): no drug, no connections, not arrested; availability `none` for
traffickers and 1 otherwise. -/
def newAgent (t : AgentType) (id : ℕ) (attr : ℚ) : Agent :=
  { agent_id := id, agent_type := t, drug := 0, attractiveness := attr,
    availability := if t = .trafficker then none else some 1,
    connections := [], link_data := [], profit := 0,
    is_arrested := false, arrest_date := none }

/-- Modelled from the spec: `Network.add_agent` is invoked by the
recruitment step but is not defined in `agents.py` (the call would raise
`AttributeError`); per spec §3, "new members added at month boundaries
under growth rules ... never physically deleted", it is modelled as
inserting the member into the network's id-keyed map. -/
def Network.add_agent (net : Network) (a : Agent) : Network :=
  { net with agents := net.agents ++ [a] }

/-- Python `random.choice` on a nonempty list, the pick decided by an
oracle index (modulo the length). -/
def pickBy (l : List Agent) (i : ℕ) : Option Agent :=
  l.get? (i % l.length)

/-- `_is_recruitment_paused`: the NetLogo stop checks mirrored during the
disruption window. -/
def isRecruitmentPaused (o : ParamsOracle) (gs : GlobalState) (tick : ℚ) : Bool :=
  match gs.ticks_disruption with
  | none => false
  | some td0 =>
      let td : ℚ := td0
      let stop := gs.stop_acquire_days
      if td < tick ∧ tick ≤ td + stop then
        if gs.arrested_mode = "arrested%" then
          if gs.arrested_pct ≠ 0 then
            if tick ≤ td + stop / 2 then
              if (o.rd1_pause : ℚ) ≤ gs.arrested_pct then true
              else decide (o.rd_pause ≤ 1 - gs.efficiency_vs_security)
            else decide (o.rd_pause ≤ 1 - gs.efficiency_vs_security)
          else false
        else
          if gs.arrested_num ≠ 0 then
            if tick ≤ td + stop / 2 then
              if (o.rd1_pause : ℚ) ≤ gs.arrested_num then true
              else decide (o.rd_pause ≤ 1 - gs.efficiency_vs_security)
            else decide (o.rd_pause ≤ 1 - gs.efficiency_vs_security)
          else false
      else false

/-- `_update_parameters`: monthly recruitment and logarithmic parameter
growth.  Early aborts (a required partner tier being empty) clear the
`running` flag and return, as in the source. -/
def update_parameters (o : ParamsOracle) (tick : ℤ) (s : SimState) : SimState :=
  let gs0 :=
    if s.gs.disruption_mode = "scenario3" then
      match s.gs.ticks_disruption with
      | some td =>
          match scenario3Windows td with
          | some d => { s.gs with stop_acquire_days := d }
          | none => s.gs
      | none => s.gs
    else s.gs
  let s := { s with gs := gs0 }
  if isRecruitmentPaused o gs0 (tick : ℚ) then s
  else
    let eta := gs0.efficiency_vs_security
    let traffickers0 := s.net.get_active_agents_by_type .trafficker
    let packagers0 := s.net.get_active_agents_by_type .packager
    let retailers0 := s.net.get_active_agents_by_type .retailer
    let sc := gs0.wholesale_price / gs0.retail_price
    -- trafficker recruitment
    let recT : Except SimState (SimState × List Agent) :=
      if traffickers0.length = 0 ∨ o.y_traffickers > (traffickers0.length : ℤ) then
        let profT := (gs0.cost_per_day - gs0.cost_per_day * sc)
          * gs0.traffickers_share_of_profits / ((traffickers0.length : ℚ) + 1)
        if profT > gs0.profit_of_traffickers_min ∧ o.rd_tr > 1 - eta then
          let nt := newAgent .trafficker o.id_tr o.attr_tr
          let net := s.net.add_agent nt
          match pickBy packagers0 o.partner_tr with
          | some partner =>
              let net := (net.add_link nt.agent_id partner.agent_id "trafficker-packager").1
              let traffickers := traffickers0 ++ [nt]
              let gsNext := { s.gs with n_active_traffickers := traffickers.length }
              let sNext : SimState := { s with net := net, gs := gsNext }
              Except.ok (sNext, traffickers)
          | none => Except.error { s with net := net, running := false }
        else Except.ok (s, traffickers0)
      else Except.ok (s, traffickers0)
    match recT with
    | Except.error sEnd => sEnd
    | Except.ok (s, traffickers) =>
    -- packager recruitment
    let recP : Except SimState (SimState × List Agent) :=
      if packagers0.length = 0 ∨ o.y_packagers > (packagers0.length : ℤ) then
        let profP := (s.gs.cost_per_day - s.gs.cost_per_day * sc)
          * (1 - s.gs.traffickers_share_of_profits) / ((packagers0.length : ℚ) + 1)
        if profP > s.gs.profit_of_packagers_min ∧ o.rd_pa > 1 - eta then
          let np := newAgent .packager o.id_pa o.attr_pa
          let net := s.net.add_agent np
          if o.coin then
            match pickBy traffickers o.partner_pa with
            | some partner =>
                let net := (net.add_link partner.agent_id np.agent_id "trafficker-packager").1
                let packagers := packagers0 ++ [np]
                let gsNext := { s.gs with n_active_packagers := packagers.length }
                let sNext : SimState := { s with net := net, gs := gsNext }
                Except.ok (sNext, packagers)
            | none => Except.error { s with net := net, running := false }
          else
            match pickBy retailers0 o.partner_pa with
            | some partner =>
                let net := (net.add_link np.agent_id partner.agent_id "packager-retailer").1
                let packagers := packagers0 ++ [np]
                let gsNext := { s.gs with n_active_packagers := packagers.length }
                let sNext : SimState := { s with net := net, gs := gsNext }
                Except.ok (sNext, packagers)
            | none => Except.error { s with net := net, running := false }
        else Except.ok (s, packagers0)
      else Except.ok (s, packagers0)
    match recP with
    | Except.error sEnd => sEnd
    | Except.ok (s, packagers) =>
    -- retailer recruitment
    let recR : Except SimState (SimState × List Agent) :=
      if retailers0.length = 0 ∨
          (o.y_retailers > (retailers0.length : ℤ) ∧ o.rd_re > 1 - eta) then
        let nr := newAgent .retailer o.id_re o.attr_re
        let net := s.net.add_agent nr
        match pickBy packagers o.partner_re with
        | some partner =>
            let net := (net.add_link partner.agent_id nr.agent_id "packager-retailer").1
            let retailers := retailers0 ++ [nr]
            let gsNext := { s.gs with n_active_retailers := retailers.length }
            let sNext : SimState := { s with net := net, gs := gsNext }
            Except.ok (sNext, retailers)
        | none => Except.error { s with net := net, running := false }
      else Except.ok (s, retailers0)
    match recR with
    | Except.error sEnd => sEnd
    | Except.ok (s, retailers) =>
    -- unit doses via logarithmic growth (oracle inputs)
    let gs1 := { s.gs with unit_dose := o.unit_dose_v,
                           unit_dose_min := o.unit_dose_min_v,
                           unit_dose_max := o.unit_dose_max_v }
    -- drug packages per role
    if traffickers.length = 0 then { s with gs := gs1, running := false }
    else
      let gs2 := { gs1 with drug_package_of_traffickers :=
        ((gs1.unit_dose_min : ℚ) + ((gs1.unit_dose_max : ℚ) - (gs1.unit_dose_min : ℚ)) * eta)
          * gs1.gram_per_dose / (traffickers.length : ℚ) * 30 }
      if packagers.length = 0 then { s with gs := gs2, running := false }
      else
        let gs3 := { gs2 with drug_package_of_packagers :=
          ((gs2.unit_dose_min : ℚ) + ((gs2.unit_dose_max : ℚ) - (gs2.unit_dose_min : ℚ)) * eta)
            * gs2.gram_per_dose / (packagers.length : ℚ) }
        if retailers.length = 0 then { s with gs := gs3, running := false }
        else
          let gs4 := { gs3 with
            target_stock_drug :=
              (gs3.unit_dose : ℚ) * gs3.gram_per_dose * START_UP_MONTHS * 30,
            cost_per_day := (o.cost_per_day_v : ℚ) }
          let gs5 := { gs4 with
            profit_of_traffickers := max gs4.profit_of_traffickers_min
              (min gs4.profit_of_traffickers_max
                ((gs4.cost_per_day - gs4.cost_per_day * sc)
                  * gs4.traffickers_share_of_profits / (traffickers.length : ℚ))),
            profit_of_packagers := max gs4.profit_of_packagers_min
              (min gs4.profit_of_packagers_max
                ((gs4.cost_per_day - gs4.cost_per_day * sc)
                  * (1 - gs4.traffickers_share_of_profits) / (packagers.length : ℚ))),
            profit_of_retailers := min gs4.profit_of_retailers_max
              ((gs4.unit_dose : ℚ) * gs4.price_per_dose
                * gs4.retailers_share_of_profits / (retailers.length : ℚ)),
            weekly_profit := (o.weekly_profit_v : ℚ) }
          let gs6 :=
            if tick > TICKS_PER_YEAR then
              { gs5 with wholesale_price := WHOLESALE_PRICE_2009,
                         retail_price := RETAIL_PRICE_2009 }
            else gs5
          let gs7 :=
            if tick > 2 * TICKS_PER_YEAR then
              { gs6 with wholesale_price := WHOLESALE_PRICE_2010,
                         retail_price := RETAIL_PRICE_2010 }
            else gs6
          let gs8 := { gs7 with
            wholesale_price_now := gs7.wholesale_price,
            retail_price_now := gs7.retail_price,
            supply_costs := gs7.wholesale_price / gs7.retail_price }
          { s with gs := gs8 }

/-! ## Network statistics (`statistics.py`) -/

/-- BFS of `_compute_components` (lines 53-66): pop an id, skip if
visited, otherwise record it in both the visited list and the current
component and enqueue its not-yet-visited neighbours.  The neighbour
expansion does NOT filter out arrested agents.  `fuel` bounds the number
of dequeues (the source loop terminates because `visited` grows). -/
def bfsComponent (net : Network) : ℕ → List ℕ → List ℕ → List ℕ → List ℕ × List ℕ
  | 0, visited, comp, _ => (visited, comp)
  | _ + 1, visited, comp, [] => (visited, comp)
  | fuel + 1, visited, comp, id :: queue =>
      if id ∈ visited then bfsComponent net fuel visited comp queue
      else
        let visited := visited ++ [id]
        let comp := comp ++ [id]
        let nbrs :=
          match net.findAgent id with
          | some a => a.connections.filter (fun nb => nb ∉ visited)
          | none => []
        bfsComponent net fuel visited comp (queue ++ nbrs)

/-- Fuel bound sufficient for every BFS in this file: one initial dequeue
plus one dequeue per stored connection. -/
def bfsFuel (net : Network) : ℕ :=
  1 + (net.agents.map (fun a => a.connections.length)).sum

/-- One step of the outer loop of `_compute_components`: skip a visited
root, otherwise BFS from it and record the nonempty component. -/
def ccStep (net : Network) (fuel : ℕ) (acc : List ℕ × List (List ℕ)) (a : Agent) :
    List ℕ × List (List ℕ) :=
  if a.agent_id ∈ acc.1 then acc
  else
    let r := bfsComponent net fuel acc.1 [] [a.agent_id]
    if r.2 ≠ [] then (r.1, acc.2 ++ [r.2]) else (r.1, acc.2)

/-- `_compute_components`: outer loop over the active agents, one BFS per
unvisited root; returns `(n_components, max_component)`. -/
def compute_components (net : Network) (fuel : ℕ) : ℕ × ℕ :=
  let comps := ((net.get_active_agents).foldl (ccStep net fuel) ([], [])).2
  (comps.length, (comps.map List.length).foldl max 0)

/-- `_compute_degree_centrality`: normalized degrees, their min / mean /
max, and the centralization index
`Σ (max - d) / ((n - 1) (n - 2))` for `n > 2` with positive max. -/
def compute_degree_centrality (active : List Agent) : ℚ × ℚ × ℚ × ℚ :=
  if active.isEmpty then (0, 0, 0, 0)
  else
    let n := active.length
    let degrees := active.map
      (fun a => if n > 1 then (a.get_degree : ℚ) / ((n : ℚ) - 1) else 0)
    let min_deg := qListMin degrees
    let avg_deg := degrees.sum / (degrees.length : ℚ)
    let max_deg := qListMax degrees
    let cen :=
      if max_deg > 0 ∧ n > 2 then
        ((degrees.map (fun d => max_deg - d)).sum) / (((n : ℚ) - 1) * ((n : ℚ) - 2))
      else 0
    (min_deg, avg_deg, max_deg, cen)

/-- Queue worker of `_find_shortest_path` (lines 238-252): pop `(id,
path)`, skip if visited, mark visited, return the path on reaching the
target, otherwise extend with unvisited ACTIVE neighbours. -/
def findSPGo (net : Network) (activeIds : List ℕ) (tgt : ℕ) :
    ℕ → List ℕ → List (ℕ × List ℕ) → List ℕ
  | 0, _, _ => []
  | _ + 1, _, [] => []
  | fuel + 1, visited, (id, path) :: queue =>
      if id ∈ visited then findSPGo net activeIds tgt fuel visited queue
      else
        let visited := visited ++ [id]
        if id = tgt then path
        else
          let nbrs :=
            match net.findAgent id with
            | some a => a.connections.filter (fun nb => nb ∉ visited ∧ nb ∈ activeIds)
            | none => []
          findSPGo net activeIds tgt fuel visited
            (queue ++ nbrs.map (fun nb => (nb, path ++ [nb])))

/-- `_find_shortest_path`: one BFS shortest path from `src` to `tgt`
through active agents only; `[]` when no path exists. -/
def find_shortest_path (net : Network) (activeIds : List ℕ) (src tgt : ℕ) (fuel : ℕ) :
    List ℕ :=
  if src = tgt then [src]
  else findSPGo net activeIds tgt fuel [] [(src, [src])]

/-- `path[1:-1]`: the interior of a path. -/
def pathInterior (path : List ℕ) : List ℕ :=
  (path.drop 1).dropLast

/-- Increment the betweenness counter of one id in the score table. -/
def bumpScore (sc : List (ℕ × ℚ)) (id : ℕ) : List (ℕ × ℚ) :=
  sc.map (fun p => if p.1 = id then (p.1, p.2 + 1) else p)

/-- One ordered pair of the betweenness double loop (lines 135-146): skip
equal endpoints, otherwise find one shortest path and credit each
interior node lying in the active set. -/
def betStep (net : Network) (activeIds : List ℕ) (fuel : ℕ) (src : Agent)
    (sc : List (ℕ × ℚ)) (tgt : Agent) : List (ℕ × ℚ) :=
  if src.agent_id = tgt.agent_id then sc
  else
    let path := find_shortest_path net activeIds src.agent_id tgt.agent_id fuel
    if path ≠ [] then
      (pathInterior path).foldl
        (fun sc mid => if mid ∈ activeIds then bumpScore sc mid else sc) sc
    else sc

/-- `_compute_betweenness_centrality`: for every ordered pair of active
agents find one shortest path and credit its interior nodes, normalize by
`2 / ((n - 1) (n - 2))` for `n > 2` (by 1 otherwise), and report min /
mean / max and the centralization index.  (The `_bfs_distances` call at
line 132 is unused in the source and omitted.) -/
def compute_betweenness (net : Network) (active : List Agent) (fuel : ℕ) :
    ℚ × ℚ × ℚ × ℚ :=
  if active.length < 2 then (0, 0, 0, 0)
  else
    let n := active.length
    let activeIds := active.map (·.agent_id)
    let scores0 : List (ℕ × ℚ) := activeIds.map (fun id => (id, 0))
    let scores := active.foldl
      (fun sc src => active.foldl (betStep net activeIds fuel src) sc)
      scores0
    let norm : ℚ := if n > 2 then 2 / (((n : ℚ) - 1) * ((n : ℚ) - 2)) else 1
    let values := scores.map (fun p => p.2 * norm)
    let min_bet := qListMin values
    let avg_bet := values.sum / (values.length : ℚ)
    let max_bet := qListMax values
    let cen :=
      if max_bet > 0 then
        if n > 1 then
          ((values.map (fun b => max_bet - b)).sum) / (((n : ℚ) - 1) * ((n : ℚ) - 2))
        else 0
      else 0
    (min_bet, avg_bet, max_bet, cen)

/-- Queue worker of `_bfs_distances` (lines 210-223): distances from a
source over ALL connections (no active filter). -/
def bfsDistGo (net : Network) :
    ℕ → List ℕ → List (ℕ × ℕ) → List (ℕ × ℕ) → List (ℕ × ℕ)
  | 0, _, dists, _ => dists
  | _ + 1, _, dists, [] => dists
  | fuel + 1, visited, dists, (id, d) :: queue =>
      if id ∈ visited then bfsDistGo net fuel visited dists queue
      else
        let visited := visited ++ [id]
        let dists := dists ++ [(id, d)]
        let nbrs :=
          match net.findAgent id with
          | some a => a.connections.filter (fun nb => nb ∉ visited)
          | none => []
        bfsDistGo net fuel visited dists (queue ++ nbrs.map (fun nb => (nb, d + 1)))

/-- `_bfs_distances` from one source. -/
def bfs_distances (net : Network) (src : ℕ) (fuel : ℕ) : List (ℕ × ℕ) :=
  bfsDistGo net fuel [] [] [(src, 0)]

/-- `_compute_geodesic`: mean shortest-path length over ordered active
pairs, a disconnected pair contributing the source's max observed
distance plus one. -/
def compute_geodesic (net : Network) (active : List Agent) (fuel : ℕ) : ℚ :=
  if active.length < 2 then 0
  else
    let infinity : ℕ := 999999
    let tc := active.foldl
      (fun (tc : ℕ × ℕ) src =>
        let dists := bfs_distances net src.agent_id fuel
        active.foldl
          (fun (tc : ℕ × ℕ) tgt =>
            if src.agent_id ≠ tgt.agent_id then
              let d0 := (assocFind dists tgt.agent_id).getD infinity
              let d :=
                if d0 = infinity then
                  if dists ≠ [] then (dists.map (·.2)).foldl max 0 + 1 else 2
                else d0
              (tc.1 + d, tc.2 + 1)
            else tc)
          tc)
      (0, 0)
    if tc.2 > 0 then (tc.1 : ℚ) / (tc.2 : ℚ) else 0

/-- The statistics record returned by `compute_all_statistics`. -/
structure SimStats where
  n_components : ℕ
  max_component : ℕ
  min_ndegree : ℚ
  avg_ndegree : ℚ
  max_ndegree : ℚ
  cen_ndegree : ℚ
  min_nbetweenness : ℚ
  avg_nbetweenness : ℚ
  max_nbetweenness : ℚ
  cen_nbetweenness : ℚ
  average_path_length : ℚ
deriving DecidableEq, Repr

/-- `_empty_stats`: the all-zero record. -/
def emptyStats : SimStats :=
  ⟨0, 0, 0, 0, 0, 0, 0, 0, 0, 0, 0⟩

/-- `compute_all_statistics`: empty-active short-circuit, then components,
degree centrality, betweenness and average path length. -/
def compute_all_statistics (net : Network) : SimStats :=
  let active := net.get_active_agents
  if active.isEmpty then emptyStats
  else
    let fuel := bfsFuel net
    let (nc, mc) := compute_components net fuel
    let (mind, avgd, maxd, cend) := compute_degree_centrality active
    let (minb, avgb, maxb, cenb) := compute_betweenness net active fuel
    let apl := compute_geodesic net active fuel
    ⟨nc, mc, mind, avgd, maxd, cend, minb, avgb, maxb, cenb, apl⟩

/-! ## Operations on one simulation instance

The operations of the per-tick sequence that touch the network, as one
inductive type: acquisition, packaging/transfer, retail sale, minor and
major arrests, the monthly parameter update with recruitment, and the
weekly expense settlement. -/

/-- One operation applied to a simulation instance. -/
inductive Op where
  | acquire (pow4 : ℚ → ℚ) (o : AcqOracle) (tick : ℤ)
  | package (o : PackOracle) (fuel : ℕ)
  | sell (o : SellOracle)
  | minor (o : MinorOracle) (tick : ℤ)
  | major (o : MajorOracle) (tick : ℤ) (pct : ℚ)
  | params (o : ParamsOracle) (tick : ℤ)
  | expenses (o : ExpenseOracle)

/-- Apply one operation. -/
def applyOp : Op → SimState → SimState
  | .acquire pow4 o tick => acquire_drug pow4 o tick
  | .package o fuel => package_drug o fuel
  | .sell o => sell_drug o
  | .minor o tick => perform_minor_arrests o tick
  | .major o tick pct => perform_major_arrest o tick pct
  | .params o tick => update_parameters o tick
  | .expenses o => account_for_expenses o

/-- Apply a sequence of operations in order. -/
def applyOps (ops : List Op) (s : SimState) : SimState :=
  ops.foldl (fun s op => applyOp op s) s

/-- The arrest flag of the member stored under an id (`false` when the id
is absent). -/
def arrestedIn (net : Network) (id : ℕ) : Bool :=
  ((net.findAgent id).getD defaultAgent).is_arrested

/-! ## Basic lemmas about the data model -/

/-- Connections after `add_connection`: the partner joins the set at most
once. -/
theorem add_connection_connections (a : Agent) (other : ℕ) (lt : String) (fam : ℚ) :
    (a.add_connection other lt fam).connections =
      if other ∈ a.connections then a.connections else a.connections ++ [other] := by
  unfold Agent.add_connection
  cases h : assocFind a.link_data other <;> simp [h]

theorem add_connection_drug (a : Agent) (other : ℕ) (lt : String) (fam : ℚ) :
    (a.add_connection other lt fam).drug = a.drug := by
  unfold Agent.add_connection
  cases h : assocFind a.link_data other <;> simp [h]

theorem add_connection_agent_id (a : Agent) (other : ℕ) (lt : String) (fam : ℚ) :
    (a.add_connection other lt fam).agent_id = a.agent_id := by
  unfold Agent.add_connection
  cases h : assocFind a.link_data other <;> simp [h]

theorem add_connection_agent_type (a : Agent) (other : ℕ) (lt : String) (fam : ℚ) :
    (a.add_connection other lt fam).agent_type = a.agent_type := by
  unfold Agent.add_connection
  cases h : assocFind a.link_data other <;> simp [h]

theorem add_connection_is_arrested (a : Agent) (other : ℕ) (lt : String) (fam : ℚ) :
    (a.add_connection other lt fam).is_arrested = a.is_arrested := by
  unfold Agent.add_connection
  cases h : assocFind a.link_data other <;> simp [h]

theorem add_connection_availability (a : Agent) (other : ℕ) (lt : String) (fam : ℚ) :
    (a.add_connection other lt fam).availability = a.availability := by
  unfold Agent.add_connection
  cases h : assocFind a.link_data other <;> simp [h]

/-- `assocFind` through an append when the key misses the prefix. -/
theorem assocFind_append_of_none {β : Type} {l1 l2 : List (ℕ × β)} {k : ℕ}
    (h : assocFind l1 k = none) : assocFind (l1 ++ l2) k = assocFind l2 k := by
  induction l1 with
  | nil => simp [assocFind]
  | cons p rest ih =>
      rw [assocFind] at h
      by_cases hk : p.1 = k
      · simp [hk] at h
      · rw [if_neg hk] at h
        rw [List.cons_append, assocFind, if_neg hk]
        exact ih h

/-- `assocFind` through an append when the key hits the prefix. -/
theorem assocFind_append_of_some {β : Type} {l1 l2 : List (ℕ × β)} {k : ℕ} {v : β}
    (h : assocFind l1 k = some v) : assocFind (l1 ++ l2) k = some v := by
  induction l1 with
  | nil => simp [assocFind] at h
  | cons p rest ih =>
      rw [assocFind] at h
      by_cases hk : p.1 = k
      · rw [if_pos hk] at h
        rw [List.cons_append, assocFind, if_pos hk]
        exact h
      · rw [if_neg hk] at h
        rw [List.cons_append, assocFind, if_neg hk]
        exact ih h

/-- `assocFind` through the key-preserving familiarity bump. -/
theorem assocFind_map_bump {l : List (ℕ × LinkRec)} {k : ℕ} {v : LinkRec}
    (h : assocFind l k = some v) :
    assocFind (l.map (fun p => if p.1 = k then (p.1, { p.2 with familiarity := p.2.familiarity + 1 })
      else p)) k = some { v with familiarity := v.familiarity + 1 } := by
  induction l with
  | nil => simp [assocFind] at h
  | cons p rest ih =>
      rw [assocFind] at h
      by_cases hk : p.1 = k
      · rw [if_pos hk] at h
        obtain rfl : p.2 = v := by simpa using h
        rw [List.map_cons, if_pos hk, assocFind, if_pos hk]
      · rw [if_neg hk] at h
        rw [List.map_cons, if_neg hk, assocFind, if_neg hk]
        exact ih h

/-- Familiarity after `add_connection` with the default initial weight 1:
one more than before, whether the link is fresh (0 → 1) or updated. -/
theorem add_connection_fam_self (a : Agent) (other : ℕ) (lt : String) :
    (a.add_connection other lt 1).get_connection_familiarity other =
      a.get_connection_familiarity other + 1 := by
  unfold Agent.add_connection Agent.get_connection_familiarity
  cases h : assocFind a.link_data other with
  | none =>
      simp only [h]
      rw [assocFind_append_of_none h]
      simp [assocFind]
  | some v =>
      simp only [h]
      rw [assocFind_map_bump h]

/-- `findAgent` through `updAgent` for an id-preserving update. -/
theorem findAgent_updAgent (net : Network) (id : ℕ) (f : Agent → Agent)
    (hf : ∀ x, (f x).agent_id = x.agent_id) (id' : ℕ) :
    (net.updAgent id f).findAgent id' =
      (net.findAgent id').map (fun a => if a.agent_id = id then f a else a) := by
  unfold Network.updAgent Network.findAgent
  rw [List.find?_map]
  have hp : ((fun a => decide (a.agent_id = id')) ∘
      fun a => if a.agent_id = id then f a else a) = fun a => decide (a.agent_id = id') := by
    funext a
    by_cases h : a.agent_id = id <;> simp [Function.comp, h, hf]
  rw [hp]

/-- `findAgent` through `updAgent` at a different id. -/
theorem findAgent_updAgent_ne (net : Network) (id : ℕ) (f : Agent → Agent)
    (hf : ∀ x, (f x).agent_id = x.agent_id) (id' : ℕ) (hne : id' ≠ id) :
    (net.updAgent id f).findAgent id' = net.findAgent id' := by
  rw [findAgent_updAgent net id f hf id']
  cases h : net.findAgent id' with
  | none => rfl
  | some a =>
      have ha : a.agent_id = id' := by
        have := List.find?_some h
        simpa using this
      simp [ha, hne]

/-- `findAgent` through `updAgent` at the updated id. -/
theorem findAgent_updAgent_eq (net : Network) (id : ℕ) (f : Agent → Agent)
    (hf : ∀ x, (f x).agent_id = x.agent_id) :
    (net.updAgent id f).findAgent id = (net.findAgent id).map f := by
  rw [findAgent_updAgent net id f hf id]
  cases h : net.findAgent id with
  | none => rfl
  | some a =>
      have ha : a.agent_id = id := by
        have := List.find?_some h
        simpa using this
      simp [ha]

/-- A found agent record carries the id it was looked up by. -/
theorem findAgent_some_id {net : Network} {id : ℕ} {a : Agent}
    (h : net.findAgent id = some a) : a.agent_id = id := by
  have := List.find?_some h
  simpa using this

/-- `hasAgent` is `findAgent` success. -/
theorem hasAgent_iff_findAgent {net : Network} {id : ℕ} :
    net.hasAgent id = true ↔ ∃ a, net.findAgent id = some a := by
  unfold Network.hasAgent Network.findAgent
  rw [List.any_eq_true]
  constructor
  · rintro ⟨a, ha, hid⟩
    have hs : (net.agents.find? (fun x => decide (x.agent_id = id))).isSome := by
      rw [List.find?_isSome]
      exact ⟨a, ha, hid⟩
    obtain ⟨b, hb⟩ := Option.isSome_iff_exists.mp hs
    exact ⟨b, hb⟩
  · rintro ⟨a, ha⟩
    have hid : a.agent_id = id := by
      have h2 := List.find?_some ha
      simpa using h2
    exact ⟨a, List.mem_of_find?_eq_some ha, by simpa using hid⟩

/-- `hasAgent` through `updAgent` for an id-preserving update. -/
theorem hasAgent_updAgent (net : Network) (id : ℕ) (f : Agent → Agent)
    (hf : ∀ x, (f x).agent_id = x.agent_id) (id' : ℕ) :
    (net.updAgent id f).hasAgent id' = net.hasAgent id' := by
  unfold Network.updAgent Network.hasAgent
  rw [List.any_map]
  congr 1
  funext a
  by_cases h : a.agent_id = id <;> simp [Function.comp, h, hf]

/-- The partner joins the connection set. -/
theorem mem_add_connection_self (x : Agent) (other : ℕ) (lt : String) (fam : ℚ) :
    other ∈ (x.add_connection other lt fam).connections := by
  rw [add_connection_connections]
  by_cases h : other ∈ x.connections <;> simp [h]

/-- A second `add_connection` to an existing partner leaves the
connection set unchanged. -/
theorem add_connection_connections_of_mem {x : Agent} {other : ℕ} (lt : String) (fam : ℚ)
    (h : other ∈ x.connections) :
    (x.add_connection other lt fam).connections = x.connections := by
  rw [add_connection_connections, if_pos h]

/-- Degree of the member stored under an id (0 when absent). -/
def degOf (net : Network) (id : ℕ) : ℕ :=
  ((net.findAgent id).getD defaultAgent).get_degree

/-- Familiarity of the member stored under `x` with the member `y`. -/
def famOf (net : Network) (x y : ℕ) : ℚ :=
  ((net.findAgent x).getD defaultAgent).get_connection_familiarity y

/-- Connection set of the member stored under an id. -/
def connsOf (net : Network) (id : ℕ) : List ℕ :=
  ((net.findAgent id).getD defaultAgent).connections

/-- `add_connection` preserves the id (bundled for `updAgent` lemmas). -/
theorem add_connection_id_fun (other : ℕ) (lt : String) (fam : ℚ) :
    ∀ x : Agent, (x.add_connection other lt fam).agent_id = x.agent_id :=
  fun x => add_connection_agent_id x other lt fam

/-- `findAgent` ignores the `links` field. -/
theorem findAgent_set_links (net : Network) (l : List LinkRec) (id : ℕ) :
    Network.findAgent { net with links := l } id = net.findAgent id := rfl

/-- `hasAgent` ignores the `links` field. -/
theorem hasAgent_set_links (net : Network) (l : List LinkRec) (id : ℕ) :
    Network.hasAgent { net with links := l } id = net.hasAgent id := rfl

/-- The record stored under `a` after a successful `add_link a b` is the
old record with one `add_connection b` applied (and symmetrically). -/
theorem add_link_findAgent (net : Network) (a b : ℕ) (tag : String)
    (hA : net.hasAgent a = true) (hB : net.hasAgent b = true) (hab : a ≠ b) :
    (net.add_link a b tag).1.findAgent a =
      (net.findAgent a).map (fun x => x.add_connection b tag 1)
    ∧ (net.add_link a b tag).1.findAgent b =
      (net.findAgent b).map (fun x => x.add_connection a tag 1)
    ∧ (net.add_link a b tag).2 = true
    ∧ (net.add_link a b tag).1.links = net.links ++ [⟨a, b, 1, tag⟩]
    ∧ (∀ id, (net.add_link a b tag).1.hasAgent id = net.hasAgent id) := by
  have hcond : (net.hasAgent a = true ∧ net.hasAgent b = true) := ⟨hA, hB⟩
  rw [Network.add_link, if_pos hcond]
  refine ⟨?_, ?_, rfl, ?_, ?_⟩
  · rw [findAgent_set_links,
      findAgent_updAgent_ne _ b _ (add_connection_id_fun a tag 1) a hab,
      findAgent_updAgent_eq _ a _ (add_connection_id_fun b tag 1)]
  · rw [findAgent_set_links,
      findAgent_updAgent_eq _ b _ (add_connection_id_fun a tag 1),
      findAgent_updAgent_ne _ a _ (add_connection_id_fun b tag 1) b (Ne.symm hab)]
  · simp [Network.updAgent]
  · intro id
    rw [hasAgent_set_links,
      hasAgent_updAgent _ b _ (add_connection_id_fun a tag 1) id,
      hasAgent_updAgent _ a _ (add_connection_id_fun b tag 1) id]

/-- Concrete global state used by witnesses and counterexamples: the
`_initialize_global_state` values for η = 0.5 (scenario1, no disruption),
with a 100-unit cash box, unit package size and a 1000-gram stock
target. -/
def gsW : GlobalState :=
  { disruption_mode := "scenario1", arrested_mode := "arrested%",
    target_of_disruption := "turtles", efficiency_vs_security := 1/2,
    ticks_disruption := none, stop_acquire_days := 60,
    stop_acquiring_until := none, arrested_pct := 0, arrested_num := 0,
    stock_drug := 0, stock_drug_traffickers := 0, stock_drug_packagers := 0,
    stock_drug_retailers := 0, target_stock_drug := 1000,
    wholesale_price := 40, wholesale_price_now := 40,
    retail_price := 7026/100, retail_price_now := 7026/100, price_per_dose := 32,
    minw := 40, maxw := 40, minacq_ind := 0, maxacq_ind := 0,
    cash_box := 100, revenues := 0, expenses := 0,
    weekly_profit := 35000, weekly_profit_now := 0, cost_per_day := 10300,
    supply_costs := 0, drug_package_of_traffickers := 1,
    drug_package_of_packagers := 1, drug_package_of_retailers := 23/4,
    drug_max_of_packagers := 500, gram_per_dose := 1/4,
    unit_dose := 580, unit_dose_min := 530, unit_dose_max := 900,
    unit_dose_now := 580, retailers_share_of_profits := 18/100,
    traffickers_share_of_profits := 7/10, profit_of_retailers_max := 500,
    profit_of_retailers := 0, profit_of_traffickers := 475,
    profit_of_packagers := 237, profit_of_traffickers_min := 475,
    profit_of_traffickers_max := 566, profit_of_packagers_min := 237,
    profit_of_packagers_max := 283, n_acquisition := 0,
    n_exhaust_traffickers := 0, n_exhaust_packagers := 0,
    n_exhaust_retailers := 0, n_exhaust_retailers_90 := 0,
    n_arrested_traffickers_minor := 0, n_arrested_packagers_minor := 0,
    n_arrested_retailers_minor := 0, n_arrested_traffickers_major := 0,
    n_arrested_packagers_major := 0, n_arrested_retailers_major := 0,
    n_active_traffickers := 1, n_active_packagers := 1, n_active_retailers := 0,
    n_disruptions_obs := 1, fm_traffickers_wage := 0, fm_packagers_wage := 0,
    fm_retailers_wage := 0, arrested_retailers_family_wages := 0,
    dead_members_family_wages := 0, arrested_homicide_family_wages := 7000,
    n_weekly_profit_min := 0, n_weekly_profit_max := 0, n_weekly_profit_neg := 0,
    arrested_retailers_family := 0, dead_members_family := 0,
    ticks_traffickers := 0, ticks_packagers := 0, ticks_retailers := 0 }

/-- Concrete trafficker record used by witnesses. -/
def agW1 : Agent :=
  { agent_id := 1, agent_type := .trafficker, drug := 10, attractiveness := 1/2,
    availability := none, connections := [], link_data := [], profit := 0,
    is_arrested := false, arrest_date := none }

/-- Concrete packager record used by witnesses. -/
def agW2 : Agent :=
  { agent_id := 2, agent_type := .packager, drug := 0, attractiveness := 1/2,
    availability := some 1, connections := [], link_data := [], profit := 0,
    is_arrested := false, arrest_date := none }

/-- Concrete two-member network used by witnesses. -/
def netW : Network := ⟨[agW1, agW2], []⟩

/-- C8: calling `add_link(a, b, tag)` twice in immediate succession with
no intervening transfer leaves `degree(a)` and `degree(b)` unchanged
relative to the state after the first call (the connection sets gain no
duplicate), while each call increments the pair's familiarity by 1 on
both endpoints. -/
theorem c8_add_relationship_idempotent (net : Network) (a b : ℕ) (tag : String)
    (hA : net.hasAgent a = true) (hB : net.hasAgent b = true) (hab : a ≠ b) :
    degOf ((net.add_link a b tag).1.add_link a b tag).1 a
        = degOf (net.add_link a b tag).1 a
    ∧ degOf ((net.add_link a b tag).1.add_link a b tag).1 b
        = degOf (net.add_link a b tag).1 b
    ∧ famOf (net.add_link a b tag).1 a b = famOf net a b + 1
    ∧ famOf ((net.add_link a b tag).1.add_link a b tag).1 a b
        = famOf (net.add_link a b tag).1 a b + 1
    ∧ famOf (net.add_link a b tag).1 b a = famOf net b a + 1
    ∧ famOf ((net.add_link a b tag).1.add_link a b tag).1 b a
        = famOf (net.add_link a b tag).1 b a + 1 := by
  obtain ⟨ra, hra⟩ := hasAgent_iff_findAgent.mp hA
  obtain ⟨rb, hrb⟩ := hasAgent_iff_findAgent.mp hB
  obtain ⟨f1a, f1b, -, -, hhas1⟩ := add_link_findAgent net a b tag hA hB hab
  have hA1 : (net.add_link a b tag).1.hasAgent a = true := by rw [hhas1 a]; exact hA
  have hB1 : (net.add_link a b tag).1.hasAgent b = true := by rw [hhas1 b]; exact hB
  obtain ⟨f2a, f2b, -, -, -⟩ :=
    add_link_findAgent (net.add_link a b tag).1 a b tag hA1 hB1 hab
  have e1a : (net.add_link a b tag).1.findAgent a = some (ra.add_connection b tag 1) := by
    rw [f1a, hra]; rfl
  have e1b : (net.add_link a b tag).1.findAgent b = some (rb.add_connection a tag 1) := by
    rw [f1b, hrb]; rfl
  have e2a : ((net.add_link a b tag).1.add_link a b tag).1.findAgent a
      = some ((ra.add_connection b tag 1).add_connection b tag 1) := by
    rw [f2a, e1a]; rfl
  have e2b : ((net.add_link a b tag).1.add_link a b tag).1.findAgent b
      = some ((rb.add_connection a tag 1).add_connection a tag 1) := by
    rw [f2b, e1b]; rfl
  refine ⟨?_, ?_, ?_, ?_, ?_, ?_⟩
  · rw [degOf, degOf, e2a, e1a]
    simp only [Option.getD_some]
    unfold Agent.get_degree
    rw [add_connection_connections_of_mem tag 1 (mem_add_connection_self ra b tag 1)]
  · rw [degOf, degOf, e2b, e1b]
    simp only [Option.getD_some]
    unfold Agent.get_degree
    rw [add_connection_connections_of_mem tag 1 (mem_add_connection_self rb a tag 1)]
  · rw [famOf, famOf, e1a, hra]
    simp only [Option.getD_some]
    exact add_connection_fam_self ra b tag
  · rw [famOf, famOf, e2a, e1a]
    simp only [Option.getD_some]
    exact add_connection_fam_self (ra.add_connection b tag 1) b tag
  · rw [famOf, famOf, e1b, hrb]
    simp only [Option.getD_some]
    exact add_connection_fam_self rb a tag
  · rw [famOf, famOf, e2b, e1b]
    simp only [Option.getD_some]
    exact add_connection_fam_self (rb.add_connection a tag 1) a tag

/-- Witness for C8 on a concrete two-member network. -/
theorem c8_add_relationship_idempotent_witness :
    degOf ((netW.add_link 1 2 "trafficker-packager").1.add_link 1 2 "trafficker-packager").1 1
      = degOf (netW.add_link 1 2 "trafficker-packager").1 1
    ∧ famOf (netW.add_link 1 2 "trafficker-packager").1 1 2 = famOf netW 1 2 + 1 := by
  have h := c8_add_relationship_idempotent netW 1 2 "trafficker-packager"
    (by decide) (by decide) (by decide)
  exact ⟨h.1, h.2.2.1⟩

/-- C9: a successful `add_link` call always appends one `Link` record and
returns `True` — even for an already-linked pair, so `links` counts calls
— while each endpoint's connection set gains the partner at most once;
with an absent endpoint it returns `False` and changes nothing. -/
theorem c9_add_link_appends_counts_calls (net : Network) (a b : ℕ) (tag : String) :
    (net.hasAgent a = true → net.hasAgent b = true → a ≠ b →
      (net.add_link a b tag).2 = true
      ∧ (net.add_link a b tag).1.links = net.links ++ [⟨a, b, 1, tag⟩]
      ∧ connsOf (net.add_link a b tag).1 a
          = (if b ∈ connsOf net a then connsOf net a else connsOf net a ++ [b])
      ∧ connsOf (net.add_link a b tag).1 b
          = (if a ∈ connsOf net b then connsOf net b else connsOf net b ++ [a]))
    ∧ (¬(net.hasAgent a = true ∧ net.hasAgent b = true) →
        net.add_link a b tag = (net, false)) := by
  constructor
  · intro hA hB hab
    obtain ⟨ra, hra⟩ := hasAgent_iff_findAgent.mp hA
    obtain ⟨rb, hrb⟩ := hasAgent_iff_findAgent.mp hB
    obtain ⟨f1a, f1b, hret, hlinks, -⟩ := add_link_findAgent net a b tag hA hB hab
    refine ⟨hret, hlinks, ?_, ?_⟩
    · rw [connsOf, connsOf, f1a, hra]
      simp only [Option.map_some, Option.getD_some]
      exact add_connection_connections ra b tag 1
    · rw [connsOf, connsOf, f1b, hrb]
      simp only [Option.map_some, Option.getD_some]
      exact add_connection_connections rb a tag 1
  · intro h
    rw [Network.add_link, if_neg h]

/-- Witness for C9: a present pair appends a record and returns `True`;
an absent endpoint returns `False` unchanged. -/
theorem c9_add_link_appends_counts_calls_witness :
    ((netW.add_link 1 2 "trafficker-packager").2 = true
      ∧ (netW.add_link 1 2 "trafficker-packager").1.links
          = netW.links ++ [⟨1, 2, 1, "trafficker-packager"⟩])
    ∧ netW.add_link 1 5 "trafficker-packager" = (netW, false) := by
  have h1 := (c9_add_link_appends_counts_calls netW 1 2 "trafficker-packager").1
    (by decide) (by decide) (by decide)
  have h2 := (c9_add_link_appends_counts_calls netW 1 5 "trafficker-packager").2
    (by decide)
  exact ⟨⟨h1.1, h1.2.1⟩, h2⟩

/-- The component BFS only appends: the visited list and the component
grow by the same new ids, in the same order. -/
theorem bfsComponent_append (net : Network) :
    ∀ (fuel : ℕ) (visited comp queue : List ℕ),
      ∃ δ, (bfsComponent net fuel visited comp queue).1 = visited ++ δ
        ∧ (bfsComponent net fuel visited comp queue).2 = comp ++ δ := by
  intro fuel
  induction fuel with
  | zero =>
      intro visited comp queue
      exact ⟨[], by simp [bfsComponent]⟩
  | succ n ih =>
      intro visited comp queue
      match queue with
      | [] => exact ⟨[], by simp [bfsComponent]⟩
      | id :: rest =>
          by_cases h : id ∈ visited
          · simpa [bfsComponent, h] using ih visited comp rest
          · cases hf : net.findAgent id with
            | none =>
                obtain ⟨δ, h1, h2⟩ := ih (visited ++ [id]) (comp ++ [id]) (rest ++ [])
                refine ⟨id :: δ, ?_, ?_⟩
                · simpa [bfsComponent, h, hf] using h1
                · simpa [bfsComponent, h, hf] using h2
            | some a =>
                obtain ⟨δ, h1, h2⟩ := ih (visited ++ [id]) (comp ++ [id])
                  (rest ++ a.connections.filter (fun nb => nb ∉ visited ++ [id]))
                refine ⟨id :: δ, ?_, ?_⟩
                · simpa [bfsComponent, h, hf] using h1
                · simpa [bfsComponent, h, hf] using h2

/-- With exactly one active member, the components pass reports exactly
one component containing at least that member. -/
theorem compute_components_single (net : Network) (a : Agent)
    (h : net.get_active_agents = [a]) :
    (compute_components net (bfsFuel net)).1 = 1
    ∧ 1 ≤ (compute_components net (bfsFuel net)).2 := by
  obtain ⟨k, hk⟩ : ∃ k, bfsFuel net = k + 1 :=
    ⟨(net.agents.map (fun x => x.connections.length)).sum, by simp [bfsFuel, Nat.add_comm]⟩
  have hbfs : ∃ δ, (bfsComponent net (bfsFuel net) [] [] [a.agent_id]).2 = a.agent_id :: δ := by
    rw [hk]
    cases hf : net.findAgent a.agent_id with
    | none =>
        obtain ⟨δ, h1, h2⟩ := bfsComponent_append net k [a.agent_id] [a.agent_id] ([] ++ [])
        exact ⟨δ, by simpa [bfsComponent, hf] using h2⟩
    | some x =>
        obtain ⟨δ, h1, h2⟩ := bfsComponent_append net k [a.agent_id] [a.agent_id]
          ([] ++ x.connections.filter (fun nb => nb ∉ [a.agent_id]))
        exact ⟨δ, by simpa [bfsComponent, hf] using h2⟩
  obtain ⟨δ, hδ⟩ := hbfs
  rcases hB : bfsComponent net (bfsFuel net) [] [] [a.agent_id] with ⟨v2, comp⟩
  have hcomp : comp = a.agent_id :: δ := by rw [hB] at hδ; exact hδ
  have hne : ¬(comp = []) := by rw [hcomp]; exact List.cons_ne_nil _ _
  constructor
  · simp [compute_components, ccStep, h, hB, hne]
  · simp [compute_components, ccStep, h, hB, hne, hcomp]

/-- One-active-member network for the C7 counterexample. -/
def netOne : Network := ⟨[agW1], []⟩

unseal Rat.mul Rat.add Rat.inv Rat.sub in
/-- C7 counterexample: with exactly one active member,
`compute_all_statistics` does NOT return the zero record — the component
statistics report one component — refuting the claim that every metric is
zero whenever fewer than 2 active members exist. -/
theorem c7_single_active_counterexample :
    (netOne.get_active_agents).length = 1
    ∧ (compute_all_statistics netOne).n_components = 1
    ∧ (compute_all_statistics netOne).max_component = 1
    ∧ compute_all_statistics netOne ≠ emptyStats := by
  decide

/-- C7 amended: with zero active members every metric is zero; with
exactly one active member every degree, betweenness and path-length
metric is zero, but the component statistics report exactly one component
of size at least one. -/
theorem c7_fewer_than_two_active_amended (net : Network) :
    (net.get_active_agents = [] → compute_all_statistics net = emptyStats)
    ∧ (∀ a, net.get_active_agents = [a] →
        (compute_all_statistics net).min_ndegree = 0
        ∧ (compute_all_statistics net).avg_ndegree = 0
        ∧ (compute_all_statistics net).max_ndegree = 0
        ∧ (compute_all_statistics net).cen_ndegree = 0
        ∧ (compute_all_statistics net).min_nbetweenness = 0
        ∧ (compute_all_statistics net).avg_nbetweenness = 0
        ∧ (compute_all_statistics net).max_nbetweenness = 0
        ∧ (compute_all_statistics net).cen_nbetweenness = 0
        ∧ (compute_all_statistics net).average_path_length = 0
        ∧ (compute_all_statistics net).n_components = 1
        ∧ 1 ≤ (compute_all_statistics net).max_component) := by
  constructor
  · intro h
    simp [compute_all_statistics, h]
  · intro a h
    have hcomp := compute_components_single net a h
    rcases hcc : compute_components net (bfsFuel net) with ⟨nc, mc⟩
    rw [hcc] at hcomp
    have hdeg : compute_degree_centrality [a] = (0, 0, 0, 0) := by
      simp [compute_degree_centrality, qListMin, qListMax]
    have hbet : compute_betweenness net [a] (bfsFuel net) = (0, 0, 0, 0) := by
      simp [compute_betweenness]
    have hgeo : compute_geodesic net [a] (bfsFuel net) = 0 := by
      simp [compute_geodesic]
    have hstats : compute_all_statistics net = ⟨nc, mc, 0, 0, 0, 0, 0, 0, 0, 0, 0⟩ := by
      simp [compute_all_statistics, h, hcc, hdeg, hbet, hgeo]
    rw [hstats]
    exact ⟨rfl, rfl, rfl, rfl, rfl, rfl, rfl, rfl, rfl, hcomp.1, hcomp.2⟩

/-- Witness for the C7 amendment on the concrete one-member network. -/
theorem c7_fewer_than_two_active_amended_witness :
    (compute_all_statistics netOne).cen_nbetweenness = 0
    ∧ (compute_all_statistics netOne).n_components = 1 := by
  have h := (c7_fewer_than_two_active_amended netOne).2 agW1 (by rfl)
  exact ⟨h.2.2.2.2.2.2.2.1, h.2.2.2.2.2.2.2.2.2.1⟩

/-- A member of the agents list is found by `hasAgent`. -/
theorem hasAgent_of_mem {net : Network} {a : Agent} (h : a ∈ net.agents) :
    net.hasAgent a.agent_id = true := by
  unfold Network.hasAgent
  rw [List.any_eq_true]
  exact ⟨a, h, by simp⟩

/-- First dequeue of the component BFS: an unvisited root enters the
component. -/
theorem bfsComponent_start (net : Network) (k : ℕ) (visited comp : List ℕ)
    (id : ℕ) (rest : List ℕ) (h : id ∉ visited) :
    ∃ δ, (bfsComponent net (k + 1) visited comp (id :: rest)).2 = comp ++ id :: δ := by
  cases hf : net.findAgent id with
  | none =>
      obtain ⟨δ, -, h2⟩ := bfsComponent_append net k (visited ++ [id]) (comp ++ [id])
        (rest ++ [])
      exact ⟨δ, by simpa [bfsComponent, h, hf] using h2⟩
  | some a =>
      obtain ⟨δ, -, h2⟩ := bfsComponent_append net k (visited ++ [id]) (comp ++ [id])
        (rest ++ a.connections.filter (fun nb => nb ∉ visited ++ [id]))
      exact ⟨δ, by simpa [bfsComponent, h, hf] using h2⟩

/-- In a connection-closed network, the component BFS keeps the visited
list duplicate-free and inside the member table. -/
theorem bfsComponent_visited_wf (net : Network)
    (hclosed : ∀ a ∈ net.agents, ∀ c ∈ a.connections, net.hasAgent c = true) :
    ∀ (fuel : ℕ) (visited comp queue : List ℕ),
      visited.Nodup → (∀ x ∈ visited, net.hasAgent x = true) →
      (∀ x ∈ queue, net.hasAgent x = true) →
      (bfsComponent net fuel visited comp queue).1.Nodup
      ∧ (∀ x ∈ (bfsComponent net fuel visited comp queue).1, net.hasAgent x = true) := by
  intro fuel
  induction fuel with
  | zero =>
      intro v c q hnd hv _
      simpa [bfsComponent] using ⟨hnd, hv⟩
  | succ n ih =>
      intro v c q hnd hv hq
      match q with
      | [] => simpa [bfsComponent] using ⟨hnd, hv⟩
      | id :: rest =>
          by_cases h : id ∈ v
          · simpa [bfsComponent, h] using
              ih v c rest hnd hv (fun x hx => hq x (List.mem_cons_of_mem _ hx))
          · have hid : net.hasAgent id = true := hq id (List.mem_cons_self _ _)
            have hnd2 : (v ++ [id]).Nodup := by
              rw [List.nodup_append]
              exact ⟨hnd, List.nodup_singleton _, by simpa using h⟩
            have hv2 : ∀ x ∈ v ++ [id], net.hasAgent x = true := by
              intro x hx
              rcases List.mem_append.mp hx with hx | hx
              · exact hv x hx
              · obtain rfl : x = id := by simpa using hx
                exact hid
            cases hf : net.findAgent id with
            | none =>
                have hrec := ih (v ++ [id]) (c ++ [id]) (rest ++ []) hnd2 hv2
                  (by
                    intro x hx
                    rw [List.append_nil] at hx
                    exact hq x (List.mem_cons_of_mem _ hx))
                simpa [bfsComponent, h, hf] using hrec
            | some a =>
                have hqa : ∀ x ∈ rest ++ a.connections.filter (fun nb => nb ∉ v ++ [id]),
                    net.hasAgent x = true := by
                  intro x hx
                  rcases List.mem_append.mp hx with hx | hx
                  · exact hq x (List.mem_cons_of_mem _ hx)
                  · have hxc : x ∈ a.connections := List.mem_of_mem_filter hx
                    exact hclosed a (List.mem_of_find?_eq_some hf) x hxc
                have hrec := ih (v ++ [id]) (c ++ [id]) _ hnd2 hv2 hqa
                simpa [bfsComponent, h, hf] using hrec

/-- The outer components fold only appends components, at most one per
processed member. -/
theorem ccFold_comps_growth (net : Network) (fuel : ℕ) :
    ∀ (l : List Agent) (acc : List ℕ × List (List ℕ)),
      ∃ δ, (l.foldl (ccStep net fuel) acc).2 = acc.2 ++ δ ∧ δ.length ≤ l.length := by
  intro l
  induction l with
  | nil =>
      intro acc
      exact ⟨[], by simp⟩
  | cons a rest ih =>
      intro acc
      obtain ⟨δ, h1, h2⟩ := ih (ccStep net fuel acc a)
      by_cases hm : a.agent_id ∈ acc.1
      · refine ⟨δ, ?_, le_trans h2 (Nat.le_succ _)⟩
        rw [List.foldl_cons, h1]
        simp [ccStep, hm]
      · by_cases hne : (bfsComponent net fuel acc.1 [] [a.agent_id]).2 ≠ []
        · refine ⟨(bfsComponent net fuel acc.1 [] [a.agent_id]).2 :: δ, ?_, ?_⟩
          · rw [List.foldl_cons, h1]
            simp [ccStep, hm, hne]
          · simpa using Nat.succ_le_succ h2
        · refine ⟨δ, ?_, le_trans h2 (Nat.le_succ _)⟩
          rw [List.foldl_cons, h1]
          simp [ccStep, hm, hne]

/-- Invariant of the outer components fold: the visited list stays
duplicate-free and inside the member table, and every recorded component
is duplicate-free and inside the member table. -/
theorem ccFold_inv (net : Network) (fuel : ℕ)
    (hclosed : ∀ a ∈ net.agents, ∀ c ∈ a.connections, net.hasAgent c = true) :
    ∀ (l : List Agent) (acc : List ℕ × List (List ℕ)),
      (∀ a ∈ l, a ∈ net.agents) →
      acc.1.Nodup → (∀ x ∈ acc.1, net.hasAgent x = true) →
      (∀ c ∈ acc.2, c.Nodup ∧ ∀ x ∈ c, net.hasAgent x = true) →
      (∀ c ∈ (l.foldl (ccStep net fuel) acc).2,
        c.Nodup ∧ ∀ x ∈ c, net.hasAgent x = true) := by
  intro l
  induction l with
  | nil =>
      intro acc _ _ _ hc
      simpa using hc
  | cons a rest ih =>
      intro acc hl hnd hv hc
      have ha : a ∈ net.agents := hl a (List.mem_cons_self _ _)
      have hl2 : ∀ x ∈ rest, x ∈ net.agents := fun x hx => hl x (List.mem_cons_of_mem _ hx)
      rw [List.foldl_cons]
      by_cases hm : a.agent_id ∈ acc.1
      · have hstep : ccStep net fuel acc a = acc := by simp [ccStep, hm]
        rw [hstep]
        exact ih acc hl2 hnd hv hc
      · have hwf := bfsComponent_visited_wf net hclosed fuel acc.1 [] [a.agent_id] hnd hv
          (by
            intro x hx
            obtain rfl : x = a.agent_id := by simpa using hx
            exact hasAgent_of_mem ha)
        obtain ⟨δ, hδ1, hδ2⟩ := bfsComponent_append net fuel acc.1 [] [a.agent_id]
        have hr1 : (bfsComponent net fuel acc.1 [] [a.agent_id]).2.Nodup := by
          rw [hδ2]
          have := hwf.1
          rw [hδ1] at this
          simpa using this.of_append_right
        have hr2 : ∀ x ∈ (bfsComponent net fuel acc.1 [] [a.agent_id]).2,
            net.hasAgent x = true := by
          intro x hx
          apply hwf.2
          rw [hδ1]
          rw [hδ2] at hx
          simp only [List.nil_append] at hx
          exact List.mem_append.mpr (Or.inr hx)
        by_cases hne : (bfsComponent net fuel acc.1 [] [a.agent_id]).2 ≠ []
        · have hstep : ccStep net fuel acc a =
              ((bfsComponent net fuel acc.1 [] [a.agent_id]).1,
                acc.2 ++ [(bfsComponent net fuel acc.1 [] [a.agent_id]).2]) := by
            simp [ccStep, hm, hne]
          rw [hstep]
          refine ih _ hl2 hwf.1 hwf.2 ?_
          intro c hcm
          rcases List.mem_append.mp hcm with hcm | hcm
          · exact hc c hcm
          · obtain rfl : c = (bfsComponent net fuel acc.1 [] [a.agent_id]).2 := by
              simpa using hcm
            exact ⟨hr1, hr2⟩
        · have hstep : ccStep net fuel acc a =
              ((bfsComponent net fuel acc.1 [] [a.agent_id]).1, acc.2) := by
            simp [ccStep, hm, hne]
          rw [hstep]
          exact ih _ hl2 hwf.1 hwf.2 hc

/-- A duplicate-free id list inside the member table is no longer than
the member table. -/
theorem length_le_of_nodup_has {net : Network} {c : List ℕ}
    (hcnd : c.Nodup) (hhas : ∀ x ∈ c, net.hasAgent x = true) :
    c.length ≤ net.agents.length := by
  have hsub : c ⊆ net.agents.map (fun a => a.agent_id) := by
    intro x hx
    have hx2 := hhas x hx
    unfold Network.hasAgent at hx2
    rw [List.any_eq_true] at hx2
    obtain ⟨a, ha, hid⟩ := hx2
    exact List.mem_map.mpr ⟨a, ha, by simpa using hid⟩
  calc c.length ≤ (net.agents.map (fun a => a.agent_id)).length :=
        (hcnd.subperm hsub).length_le
    _ = net.agents.length := by simp

/-- `foldl max 0` of a bounded list is bounded. -/
theorem foldl_max_le (N : ℕ) :
    ∀ (l : List ℕ), (∀ x ∈ l, x ≤ N) → ∀ acc, acc ≤ N → l.foldl max acc ≤ N := by
  intro l
  induction l with
  | nil => intro _ acc hacc; simpa using hacc
  | cons x rest ih =>
      intro h acc hacc
      rw [List.foldl_cons]
      exact ih (fun y hy => h y (List.mem_cons_of_mem _ hy)) _
        (max_le hacc (h x (List.mem_cons_self _ _)))

/-- Three-member bridge network for the C6 counterexample: active members
1 and 3 are connected only through the arrested member 2. -/
def netBridge : Network :=
  ⟨[{ agW1 with connections := [2] },
    { agW2 with connections := [1, 3], is_arrested := true },
    { agW2 with agent_id := 3, agent_type := .retailer, connections := [2] }], []⟩

/-- C6 counterexample: the components BFS follows edges into arrested
members, so the two active members bridged by an arrested one are
reported as ONE component of size 3 — not two singleton components — and
the largest-component size exceeds the number of active members. -/
theorem c6_arrested_traversal_counterexample :
    (netBridge.get_active_agents).length = 2
    ∧ compute_components netBridge (bfsFuel netBridge) = (1, 3)
    ∧ ¬((compute_components netBridge (bfsFuel netBridge)).2
        ≤ (netBridge.get_active_agents).length) := by
  decide

/-- C6 amended: the traversal roots only at active members but crosses
edges incident to arrested members, so reported components may contain
arrested members; still, the component count is at most (and, when any
member is active, at least one and at most) the number of active members,
and the largest-component size is at most the total number of members in
the network. -/
theorem c6_components_amended (net : Network) (fuel : ℕ)
    (hclosed : ∀ a ∈ net.agents, ∀ c ∈ a.connections, net.hasAgent c = true)
    (hfuel : ∃ k, fuel = k + 1) :
    (compute_components net fuel).1 ≤ (net.get_active_agents).length
    ∧ (net.get_active_agents ≠ [] → 1 ≤ (compute_components net fuel).1)
    ∧ (compute_components net fuel).2 ≤ net.agents.length := by
  refine ⟨?_, ?_, ?_⟩
  · obtain ⟨δ, h1, h2⟩ := ccFold_comps_growth net fuel (net.get_active_agents) ([], [])
    simpa [compute_components, h1] using h2
  · intro hne
    obtain ⟨a, rest, har⟩ := List.exists_cons_of_ne_nil hne
    obtain ⟨k, rfl⟩ := hfuel
    obtain ⟨δ, hδ⟩ := bfsComponent_start net k [] [] a.agent_id [] (by simp)
    have hstep : (ccStep net (k + 1) ([], []) a).2 = [a.agent_id :: δ] := by
      simp [ccStep, hδ]
    obtain ⟨δ2, h1, -⟩ := ccFold_comps_growth net (k + 1) rest (ccStep net (k + 1) ([], []) a)
    rw [compute_components]
    rw [har, List.foldl_cons, h1, hstep]
    simp
  · have hcomps := ccFold_inv net fuel hclosed (net.get_active_agents) ([], [])
      (fun a ha => List.mem_of_mem_filter ha) List.nodup_nil (by simp) (by simp)
    rw [compute_components]
    refine foldl_max_le net.agents.length _ ?_ 0 (Nat.zero_le _)
    intro x hx
    obtain ⟨c, hcm, rfl⟩ := List.mem_map.mp hx
    obtain ⟨hcnd, hchas⟩ := hcomps c hcm
    exact length_le_of_nodup_has hcnd hchas

/-- Witness for the C6 amendment on the concrete bridge network. -/
theorem c6_components_amended_witness :
    (compute_components netBridge (bfsFuel netBridge)).1
        ≤ (netBridge.get_active_agents).length
    ∧ (compute_components netBridge (bfsFuel netBridge)).2 ≤ netBridge.agents.length := by
  have h := c6_components_amended netBridge (bfsFuel netBridge)
    (by decide) ⟨4, by decide⟩
  exact ⟨h.1, h.2.2⟩

/-- `foldl max` dominates its accumulator. -/
theorem foldl_qmax_ge_acc : ∀ (l : List ℚ) (acc : ℚ), acc ≤ l.foldl max acc := by
  intro l
  induction l with
  | nil => intro acc; simp
  | cons x xs ih =>
      intro acc
      rw [List.foldl_cons]
      exact le_trans (le_max_left acc x) (ih (max acc x))

/-- `foldl max` dominates every member. -/
theorem foldl_qmax_ge_mem : ∀ (l : List ℚ) (x : ℚ), x ∈ l → ∀ acc, x ≤ l.foldl max acc := by
  intro l
  induction l with
  | nil => intro x hx; simp at hx
  | cons y ys ih =>
      intro x hx acc
      rw [List.foldl_cons]
      rcases List.mem_cons.mp hx with rfl | hx
      · exact le_trans (le_max_right acc x) (foldl_qmax_ge_acc ys (max acc x))
      · exact ih x hx (max acc y)

/-- The Python `max` dominates every member. -/
theorem qListMax_ge {l : List ℚ} {x : ℚ} (h : x ∈ l) : x ≤ qListMax l := by
  match l with
  | [] => simp at h
  | y :: ys =>
      rw [qListMax]
      rcases List.mem_cons.mp h with rfl | h
      · exact foldl_qmax_ge_acc ys x
      · exact foldl_qmax_ge_mem ys x h y

/-- `foldl max` lands in the accumulator-or-list. -/
theorem foldl_qmax_mem : ∀ (l : List ℚ) (acc : ℚ), l.foldl max acc = acc ∨ l.foldl max acc ∈ l := by
  intro l
  induction l with
  | nil => intro acc; simp
  | cons y ys ih =>
      intro acc
      rw [List.foldl_cons]
      rcases ih (max acc y) with h | h
      · rcases max_choice acc y with hm | hm
        · exact Or.inl (h.trans hm)
        · refine Or.inr ?_
          rw [h.trans hm]
          exact List.mem_cons_self _ _
      · exact Or.inr (List.mem_cons_of_mem _ h)

/-- The Python `max` of a nonempty list is attained. -/
theorem qListMax_mem {l : List ℚ} (h : l ≠ []) : qListMax l ∈ l := by
  match l with
  | y :: ys =>
      rw [qListMax]
      rcases foldl_qmax_mem ys y with h2 | h2
      · rw [h2]
        exact List.mem_cons_self _ _
      · exact List.mem_cons_of_mem _ h2

/-- Sum of a constant-minus-element map. -/
theorem sum_map_const_sub (M : ℚ) :
    ∀ l : List ℚ, (l.map (fun d => M - d)).sum = l.length * M - l.sum := by
  intro l
  induction l with
  | nil => simp
  | cons x xs ih =>
      simp only [List.map_cons, List.sum_cons, ih, List.length_cons]
      push_cast
      ring

/-- Active path network for the C5 counterexample: 1 - 2 - 3, all
active. -/
def netPath3 : Network :=
  ⟨[{ agW1 with connections := [2] },
    { agW2 with connections := [1, 3] },
    { agW2 with agent_id := 3, agent_type := .retailer, connections := [2] }], []⟩

unseal Rat.mul Rat.add Rat.inv Rat.sub in
/-- C5 counterexample: on the 3-member path with every member active, the
reported betweenness centralization is 2, outside [0,1] — the simplified
one-path-per-ordered-pair betweenness with the `2/((n-1)(n-2))`
normalization makes the middle member's normalized score reach 2. -/
theorem c5_betweenness_centralization_counterexample :
    (netPath3.get_active_agents).length = 3
    ∧ (compute_betweenness netPath3 (netPath3.get_active_agents)
        (bfsFuel netPath3)).2.2.2 = 2
    ∧ ¬((compute_betweenness netPath3 (netPath3.get_active_agents)
        (bfsFuel netPath3)).2.2.2 ≤ 1) := by
  decide

/-- Well-formedness of a queue entry of `findSPGo`: a nonempty path from
the source to the entry id whose non-final nodes are already visited,
whose non-initial nodes are active, and which never revisits the
source. -/
def SPEntry (activeIds : List ℕ) (src : ℕ) (visited : List ℕ) (e : ℕ × List ℕ) : Prop :=
  e.2 ≠ [] ∧ e.2.getLast? = some e.1 ∧ e.2.head? = some src
  ∧ (∀ x ∈ e.2.dropLast, x ∈ visited)
  ∧ (∀ x ∈ e.2.drop 1, x ∈ activeIds)
  ∧ src ∉ e.2.drop 1

/-- `SPEntry` is monotone in the visited list. -/
theorem SPEntry_mono {activeIds : List ℕ} {src : ℕ} {v1 v2 : List ℕ}
    (h : ∀ x ∈ v1, x ∈ v2) {e : ℕ × List ℕ}
    (he : SPEntry activeIds src v1 e) : SPEntry activeIds src v2 e :=
  ⟨he.1, he.2.1, he.2.2.1, fun x hx => h x (he.2.2.2.1 x hx),
    he.2.2.2.2.1, he.2.2.2.2.2⟩

/-- Any nonempty path returned by the shortest-path BFS worker runs from
the source to the target, stays active after the source, never revisits
the source, and never visits the target before its end. -/
theorem findSPGo_spec (net : Network) (activeIds : List ℕ) (tgt src : ℕ) :
    ∀ (fuel : ℕ) (visited : List ℕ) (queue : List (ℕ × List ℕ)),
      tgt ∉ visited →
      (∀ e ∈ queue, SPEntry activeIds src visited e) →
      ∀ p, findSPGo net activeIds tgt fuel visited queue = p → p ≠ [] →
        p.head? = some src ∧ p.getLast? = some tgt
        ∧ (∀ x ∈ p.drop 1, x ∈ activeIds) ∧ src ∉ p.drop 1
        ∧ (∀ x ∈ p.dropLast, x ≠ tgt) := by
  intro fuel
  induction fuel with
  | zero =>
      intro visited queue _ _ p hp hne
      rw [show findSPGo net activeIds tgt 0 visited queue = [] from rfl] at hp
      exact absurd hp.symm hne
  | succ n ih =>
      intro visited queue htgt hq p hp hne
      match queue with
      | [] =>
          rw [show findSPGo net activeIds tgt (n + 1) visited [] = [] from rfl] at hp
          exact absurd hp.symm hne
      | (id, path) :: rest =>
          by_cases hv : id ∈ visited
          · refine ih visited rest htgt
              (fun e he => hq e (List.mem_cons_of_mem _ he)) p ?_ hne
            have h2 := hp
            simp only [findSPGo, if_pos hv] at h2
            exact h2
          · obtain ⟨hpne, hlast, hhead, hdl, hd1, hsrc⟩ :=
              hq (id, path) (List.mem_cons_self _ _)
            dsimp only at hpne hlast hhead hdl hd1 hsrc
            by_cases hit : id = tgt
            · have hpp : path = p := by
                have h2 := hp
                simp only [findSPGo, if_neg hv, if_pos hit] at h2
                exact h2
              rw [← hpp]
              refine ⟨hhead, ?_, hd1, hsrc, ?_⟩
              · rw [hlast, hit]
              · intro x hx hxt
                exact htgt (hxt ▸ hdl x hx)
            · -- recursive case
              have htgt2 : tgt ∉ visited ++ [id] := by
                intro hx
                rcases List.mem_append.mp hx with hx | hx
                · exact htgt hx
                · have h3 : tgt = id := by simpa using hx
                  exact hit h3.symm
              have hmono : ∀ x ∈ visited, x ∈ visited ++ [id] :=
                fun x hx => List.mem_append.mpr (Or.inl hx)
              have hrest : ∀ e ∈ rest, SPEntry activeIds src (visited ++ [id]) e :=
                fun e he => SPEntry_mono hmono
                  (hq e (List.mem_cons_of_mem _ he))
              obtain ⟨y, ys, rfl⟩ := List.exists_cons_of_ne_nil hpne
              have hysrc : y = src := by simpa using hhead
              have hpathv : ∀ x ∈ y :: ys, x ∈ visited ++ [id] := by
                intro x hx
                have hdec := List.dropLast_append_getLast (l := y :: ys) hpne
                rw [← hdec] at hx
                rcases List.mem_append.mp hx with hx | hx
                · exact List.mem_append.mpr (Or.inl (hdl x hx))
                · obtain rfl : x = (y :: ys).getLast hpne := by
                    simpa using hx
                  have hgl : (y :: ys).getLast hpne = id := by
                    have h2 := List.getLast?_eq_getLast (y :: ys) hpne
                    rw [h2] at hlast
                    exact Option.some.inj hlast
                  rw [hgl]
                  exact List.mem_append.mpr (Or.inr (List.mem_singleton.mpr rfl))
              have hsrcv : src ∈ visited ++ [id] :=
                hysrc ▸ hpathv y (List.mem_cons_self _ _)
              have hnewEntry : ∀ nb,
                  nb ∉ visited ++ [id] → nb ∈ activeIds →
                  SPEntry activeIds src (visited ++ [id]) (nb, (y :: ys) ++ [nb]) := by
                intro nb hnb1 hnb2
                refine ⟨by simp, ?_, ?_, ?_, ?_, ?_⟩
                · show ((y :: ys) ++ [nb]).getLast? = some nb
                  rw [List.getLast?_concat]
                · show ((y :: ys) ++ [nb]).head? = some src
                  rw [List.cons_append, List.head?_cons, hysrc]
                · show ∀ x ∈ ((y :: ys) ++ [nb]).dropLast, x ∈ visited ++ [id]
                  rw [List.dropLast_concat]
                  exact hpathv
                · show ∀ x ∈ ((y :: ys) ++ [nb]).drop 1, x ∈ activeIds
                  intro x hx
                  rw [show ((y :: ys) ++ [nb]).drop 1 = ys ++ [nb] from rfl] at hx
                  rcases List.mem_append.mp hx with hx | hx
                  · exact hd1 x (by simpa using hx)
                  · obtain rfl : x = nb := by simpa using hx
                    exact hnb2
                · show src ∉ ((y :: ys) ++ [nb]).drop 1
                  intro hx
                  rw [show ((y :: ys) ++ [nb]).drop 1 = ys ++ [nb] from rfl] at hx
                  rcases List.mem_append.mp hx with hx | hx
                  · exact hsrc (by simpa using hx)
                  · obtain hsnb : src = nb := by simpa using hx
                    exact hnb1 (hsnb ▸ hsrcv)
              cases hf : net.findAgent id with
              | none =>
                  refine ih (visited ++ [id]) (rest ++ []) htgt2 ?_ p ?_ hne
                  · intro e he
                    rw [List.append_nil] at he
                    exact hrest e he
                  · have h2 := hp
                    simp only [findSPGo, if_neg hv, if_neg hit, hf] at h2
                    simpa using h2
              | some a =>
                  refine ih (visited ++ [id])
                    (rest ++ (a.connections.filter
                      (fun nb => nb ∉ visited ++ [id] ∧ nb ∈ activeIds)).map
                        (fun nb => (nb, (y :: ys) ++ [nb]))) htgt2 ?_ p ?_ hne
                  · intro e he
                    rcases List.mem_append.mp he with he | he
                    · exact hrest e he
                    · obtain ⟨nb, hnb, rfl⟩ := List.mem_map.mp he
                      have hnb3 : nb ∉ visited ++ [id] ∧ nb ∈ activeIds := by
                        simpa using List.of_mem_filter hnb
                      exact hnewEntry nb hnb3.1 hnb3.2
                  · have h2 := hp
                    simp only [findSPGo, if_neg hv, if_neg hit, hf] at h2
                    exact h2

/-- Specification of `_find_shortest_path` on distinct endpoints: a
nonempty result runs from the source to the target, stays active after
the source, never revisits the source, and never visits the target
early. -/
theorem find_shortest_path_spec {net : Network} {activeIds : List ℕ} {src tgt : ℕ}
    (hne : src ≠ tgt) {fuel : ℕ}
    (hpne : find_shortest_path net activeIds src tgt fuel ≠ []) :
    (find_shortest_path net activeIds src tgt fuel).head? = some src
    ∧ (find_shortest_path net activeIds src tgt fuel).getLast? = some tgt
    ∧ (∀ x ∈ (find_shortest_path net activeIds src tgt fuel).drop 1, x ∈ activeIds)
    ∧ src ∉ (find_shortest_path net activeIds src tgt fuel).drop 1
    ∧ (∀ x ∈ (find_shortest_path net activeIds src tgt fuel).dropLast, x ≠ tgt) := by
  have hq : ∀ e ∈ [(src, [src])], SPEntry activeIds src [] e := by
    intro e he
    have he2 : e = (src, [src]) := by simpa using he
    subst he2
    simp [SPEntry]
  have h0 : findSPGo net activeIds tgt fuel [] [(src, [src])]
      = find_shortest_path net activeIds src tgt fuel := by
    rw [find_shortest_path, if_neg hne]
  exact findSPGo_spec net activeIds tgt src fuel [] [(src, [src])]
    (by simp) hq _ h0 hpne

/-- An interior node of a path lies both after the head and before the
last node. -/
theorem mem_pathInterior {p : List ℕ} {x : ℕ} (h : x ∈ pathInterior p) :
    x ∈ p.drop 1 ∧ x ∈ p.dropLast := by
  refine ⟨List.dropLast_subset _ h, ?_⟩
  match p with
  | [] => simp [pathInterior] at h
  | [y] => simp [pathInterior] at h
  | y :: z :: zs =>
      rw [pathInterior] at h
      rw [show (y :: z :: zs).drop 1 = z :: zs from rfl] at h
      rw [show (y :: z :: zs).dropLast = y :: (z :: zs).dropLast from rfl]
      exact List.mem_cons_of_mem _ h

/-- `betStep` leaves the score table unchanged on a pair with equal
ids. -/
theorem betStep_eq_self {net : Network} {activeIds : List ℕ} {fuel : ℕ}
    {src tgt : Agent} (sc : List (ℕ × ℚ)) (h : src.agent_id = tgt.agent_id) :
    betStep net activeIds fuel src sc tgt = sc := by
  rw [betStep, if_pos h]

/-- `betStep` leaves the score table unchanged whenever every active id
is one of the two endpoints: the found path is simple, so its interior
avoids both endpoints and hence the whole active set. -/
theorem betStep_endpoints {net : Network} {activeIds : List ℕ} {fuel : ℕ}
    (src tgt : Agent) (sc : List (ℕ × ℚ))
    (h : ∀ x ∈ activeIds, x = src.agent_id ∨ x = tgt.agent_id) :
    betStep net activeIds fuel src sc tgt = sc := by
  by_cases heq : src.agent_id = tgt.agent_id
  · exact betStep_eq_self sc heq
  · rw [betStep, if_neg heq]
    simp only
    by_cases hpne :
        find_shortest_path net activeIds src.agent_id tgt.agent_id fuel ≠ []
    · rw [if_pos hpne]
      have hspec := find_shortest_path_spec heq hpne
      have hint : pathInterior
          (find_shortest_path net activeIds src.agent_id tgt.agent_id fuel) = [] := by
        rw [List.eq_nil_iff_forall_not_mem]
        intro x hx
        obtain ⟨hx1, hx2⟩ := mem_pathInterior hx
        rcases h x (hspec.2.2.1 x hx1) with h1 | h1
        · exact hspec.2.2.2.1 (h1 ▸ hx1)
        · exact hspec.2.2.2.2 x hx2 h1
      rw [hint]
      rfl
    · rw [if_neg hpne]

/-- On a two-member active list the simplified betweenness reports all
zeroes: every pair path is simple, so no interior node is ever
credited. -/
theorem compute_betweenness_pair (net : Network) (a b : Agent) (fuel : ℕ) :
    compute_betweenness net [a, b] fuel = (0, 0, 0, 0) := by
  have hOr : ∀ x ∈ [a.agent_id, b.agent_id], x = a.agent_id ∨ x = b.agent_id := by
    intro x hx
    simpa using hx
  have hOr' : ∀ x ∈ [a.agent_id, b.agent_id], x = b.agent_id ∨ x = a.agent_id := by
    intro x hx
    exact (hOr x hx).symm
  rw [compute_betweenness, if_neg (by simp)]
  simp only [List.length_cons, List.length_nil, List.map_cons, List.map_nil,
    List.foldl_cons, List.foldl_nil]
  rw [betStep_eq_self _ rfl, betStep_endpoints a b _ hOr,
    betStep_endpoints b a _ hOr', betStep_eq_self _ rfl]
  norm_num [qListMin, qListMax]

/-- The degree centralization is zero on at most two active members. -/
theorem compute_degree_centrality_cen_small {active : List Agent}
    (h : active.length ≤ 2) :
    (compute_degree_centrality active).2.2.2 = 0 := by
  rw [compute_degree_centrality]
  split
  · rfl
  · simp only
    rw [if_neg]
    rintro ⟨-, h2⟩
    omega

/-- The betweenness centralization is zero on at most two active
members. -/
theorem compute_betweenness_cen_small {net : Network} {active : List Agent}
    {fuel : ℕ} (h : active.length ≤ 2) :
    (compute_betweenness net active fuel).2.2.2 = 0 := by
  by_cases h2 : active.length < 2
  · rw [compute_betweenness, if_pos h2]
  · have hlen : active.length = 2 := by omega
    obtain ⟨a, b, rfl⟩ := List.length_eq_two.mp hlen
    rw [compute_betweenness_pair]

/-- Sum of max-minus-element deviations over a denominator is
nonnegative. -/
theorem cen_ratio_nonneg (values : List ℚ) (den : ℚ) (hden : 0 ≤ den) :
    0 ≤ (values.map (fun d => qListMax values - d)).sum / den := by
  apply div_nonneg _ hden
  apply List.sum_nonneg
  intro x hx
  obtain ⟨d, hd, rfl⟩ := List.mem_map.mp hx
  simp only [sub_nonneg]
  exact qListMax_ge hd

/-- The degree centralization is never negative. -/
theorem compute_degree_centrality_cen_nonneg (active : List Agent) :
    0 ≤ (compute_degree_centrality active).2.2.2 := by
  rw [compute_degree_centrality]
  split
  · norm_num
  · simp only
    split
    case isTrue h1 =>
      split
      case isTrue h2 =>
        apply cen_ratio_nonneg
        have h3 : (3 : ℚ) ≤ (active.length : ℚ) := by exact_mod_cast h2.2
        nlinarith
      case isFalse => norm_num
    case isFalse h1 =>
      split
      case isTrue h2 => exact absurd h2.2 (by omega)
      case isFalse => norm_num

/-- The betweenness centralization is never negative. -/
theorem compute_betweenness_cen_nonneg (net : Network) (active : List Agent)
    (fuel : ℕ) :
    0 ≤ (compute_betweenness net active fuel).2.2.2 := by
  rw [compute_betweenness]
  split
  · norm_num
  case isFalse hlen =>
    simp only
    have hden : (0 : ℚ) ≤ ((active.length : ℚ) - 1) * ((active.length : ℚ) - 2) := by
      have h2 : (2 : ℚ) ≤ (active.length : ℚ) := by
        exact_mod_cast Nat.not_lt.mp hlen
      nlinarith
    split
    · split
      · split
        · exact cen_ratio_nonneg _ _ hden
        · norm_num
      · norm_num
    · split
      · split
        · exact cen_ratio_nonneg _ _ hden
        · norm_num
      · norm_num

/-- Arithmetic core of the degree-centralization upper bound. -/
theorem degree_cen_le_one_aux (L M S : ℚ) (hL : 3 ≤ L) (hM1 : M ≤ 1)
    (hSM : M ≤ S) :
    (L * M - S) / ((L - 1) * (L - 2)) ≤ 1 := by
  rw [div_le_one (by nlinarith)]
  nlinarith [mul_nonneg (by linarith : (0:ℚ) ≤ L - 1) (by linarith : (0:ℚ) ≤ 1 - M),
    mul_nonneg (by linarith : (0:ℚ) ≤ L - 1) (by linarith : (0:ℚ) ≤ L - 3)]

/-- The degree centralization is at most one whenever every active
member's raw degree is at most `n - 1` — the regime the spec's formula
presumes; edges kept to arrested partners can push a degree beyond
`n - 1` and break the bound. -/
theorem compute_degree_centrality_cen_le_one {active : List Agent}
    (hdeg : ∀ a ∈ active, a.get_degree ≤ active.length - 1) :
    (compute_degree_centrality active).2.2.2 ≤ 1 := by
  rw [compute_degree_centrality]
  split
  · norm_num
  · simp only
    split
    case isTrue hn1 =>
      split
      case isTrue h2 =>
        have hn : 2 < active.length := h2.2
        have hL : (3 : ℚ) ≤ (active.length : ℚ) := by exact_mod_cast hn
        have hden : (0 : ℚ) < (active.length : ℚ) - 1 := by linarith
        set degrees := active.map
          (fun a => ((a.get_degree : ℚ)) / ((active.length : ℚ) - 1)) with hdegs
        have hmemd : ∀ d ∈ degrees, 0 ≤ d ∧ d ≤ 1 := by
          intro d hd
          obtain ⟨a, ha, rfl⟩ := List.mem_map.mp hd
          constructor
          · exact div_nonneg (by positivity) (le_of_lt hden)
          · rw [div_le_one hden]
            have h4 : a.get_degree + 1 ≤ active.length := by
              have := hdeg a ha
              omega
            have h5 : ((a.get_degree : ℚ)) + 1 ≤ (active.length : ℚ) := by
              exact_mod_cast h4
            linarith
        have hdne : degrees ≠ [] := by
          rw [hdegs]
          intro hcon
          rw [List.map_eq_nil_iff] at hcon
          rw [hcon] at hn
          simp at hn
        have hmax := qListMax_mem hdne
        rw [sum_map_const_sub, List.length_map]
        exact degree_cen_le_one_aux _ _ _ hL (hmemd _ hmax).2
          (List.single_le_sum (fun d hd => (hmemd d hd).1) _ hmax)
      case isFalse => norm_num
    case isFalse hn1 =>
      split
      case isTrue h2 => exact absurd h2.2 (by omega)
      case isFalse => norm_num

/-- C5 (amended): the reported degree and betweenness centralizations are
both 0 when at most two members are active, and both are nonnegative in
general; the degree centralization stays within [0,1] when every active
member's degree is at most `n - 1`, but — per the counterexample — the
betweenness centralization can exceed 1 for `n > 2`, so the claimed
upper bound of 1 holds only for the degree index under the degree
cap. -/
theorem c5_centralization_amended (net : Network) (active : List Agent)
    (fuel : ℕ) :
    (active.length ≤ 2 →
      (compute_degree_centrality active).2.2.2 = 0
      ∧ (compute_betweenness net active fuel).2.2.2 = 0)
    ∧ 0 ≤ (compute_degree_centrality active).2.2.2
    ∧ 0 ≤ (compute_betweenness net active fuel).2.2.2
    ∧ ((∀ a ∈ active, a.get_degree ≤ active.length - 1) →
      (compute_degree_centrality active).2.2.2 ≤ 1) :=
  ⟨fun h => ⟨compute_degree_centrality_cen_small h,
      compute_betweenness_cen_small h⟩,
    compute_degree_centrality_cen_nonneg active,
    compute_betweenness_cen_nonneg net active fuel,
    fun hdeg => compute_degree_centrality_cen_le_one hdeg⟩

/-- Two mutually linked active members for the C5 amended-claim
witness. -/
def netTwo : Network :=
  ⟨[{ agW1 with connections := [2] }, { agW2 with connections := [1] }], []⟩

/-- Witness for the amended C5 on the two-member network: both
hypotheses hold and the bounds follow. -/
theorem c5_centralization_amended_witness :
    ((netTwo.get_active_agents).length ≤ 2
      ∧ ∀ a ∈ netTwo.get_active_agents,
          a.get_degree ≤ (netTwo.get_active_agents).length - 1)
    ∧ (compute_degree_centrality (netTwo.get_active_agents)).2.2.2 = 0
    ∧ (compute_betweenness netTwo (netTwo.get_active_agents)
        (bfsFuel netTwo)).2.2.2 = 0
    ∧ (compute_degree_centrality (netTwo.get_active_agents)).2.2.2 ≤ 1 := by
  have h := c5_centralization_amended netTwo (netTwo.get_active_agents)
    (bfsFuel netTwo)
  exact ⟨⟨by decide, by decide⟩, (h.1 (by decide)).1, (h.1 (by decide)).2,
    h.2.2.2 (by decide)⟩

/-- The best-candidate fold only ever returns a member of the candidate
list (or keeps the accumulator). -/
theorem bestCandidate_mem_aux (eta : ℚ) (total : ℕ) (mv Mv mf Mf : ℚ)
    (src : Agent) :
    ∀ (l : List Agent) (acc : Option Agent × ℚ) (b : Agent),
      (l.foldl (fun best c =>
        if c.availability.getD 0 ≤ 0 then best
        else
          let score := trustAppeal eta total mv Mv mf Mf src c
          if score > best.2 then (some c, score) else best) acc).1 = some b →
      b ∈ l ∨ acc.1 = some b := by
  intro l
  induction l with
  | nil =>
      intro acc b h
      exact Or.inr h
  | cons c cs ih =>
      intro acc b h
      rw [List.foldl_cons] at h
      rcases ih _ b h with h2 | h2
      · exact Or.inl (List.mem_cons_of_mem _ h2)
      · by_cases hav : c.availability.getD 0 ≤ 0
        · rw [if_pos hav] at h2
          exact Or.inr h2
        · rw [if_neg hav] at h2
          simp only at h2
          by_cases hs : trustAppeal eta total mv Mv mf Mf src c > acc.2
          · rw [if_pos hs] at h2
            obtain rfl : c = b := by simpa using h2
            exact Or.inl (List.mem_cons_self _ _)
          · rw [if_neg hs] at h2
            exact Or.inr h2

/-- A candidate chosen by `stageBest` is a live record of the network:
looking its id up again returns the same record. -/
theorem stageBest_find {eta : ℚ} {total : ℕ} {mv Mv : ℚ} {net : Network}
    {src : Agent} {candIds : List ℕ} {b : Agent}
    (h : stageBest eta total mv Mv net src candIds = some b) :
    net.findAgent b.agent_id = some b := by
  rw [stageBest] at h
  rcases hfb : famBounds src (candIds.filterMap net.findAgent) with ⟨mf, Mf⟩
  rw [hfb] at h
  simp only at h
  rw [bestCandidate] at h
  have hmem : b ∈ candIds.filterMap net.findAgent := by
    rcases bestCandidate_mem_aux eta total mv Mv mf Mf src _ _ b h with h2 | h2
    · exact h2
    · simp at h2
  obtain ⟨cid, _, hfind⟩ := List.mem_filterMap.mp hmem
  have hid := findAgent_some_id hfind
  rw [hid]
  exact hfind

/-- One transfer of the trafficker-to-packager loop moves exactly
`min(drug_package, trafficker.drug)`: the trafficker's inventory drops by
that amount (its clamp at 0 never fires) and the chosen packager's rises
by it. -/
theorem transferTPBody_moves {eta dp dmaxp : ℚ} {total : ℕ} {mv Mv : ℚ}
    {packagerIds : List ℕ} {net : Network} {gs : GlobalState} {tid : ℕ}
    {t b : Agent}
    (hfind : net.findAgent tid = some t) (hpos : 0 < t.drug)
    (hbest : stageBest eta total mv Mv net t packagerIds = some b)
    (hbt : b.agent_id ≠ tid) :
    ∃ t2 b2,
      (transferTPBody eta dp dmaxp total mv Mv packagerIds (net, gs) tid).1.findAgent tid
        = some t2
      ∧ t2.drug = t.drug - min dp t.drug
      ∧ (transferTPBody eta dp dmaxp total mv Mv packagerIds (net, gs) tid).1.findAgent
          b.agent_id = some b2
      ∧ b2.drug = b.drug + min dp t.drug := by
  have hb := stageBest_find hbest
  have hnet : (transferTPBody eta dp dmaxp total mv Mv packagerIds (net, gs) tid).1
      = (((((net.updAgent b.agent_id
            (fun pb => { pb with drug := pb.drug + min dp t.drug })).updAgent
            tid (fun tt => { tt with drug := tt.drug - min dp t.drug })).updAgent
            tid (fun tt => tt.add_connection b.agent_id "trafficker-packager" 1)).updAgent
            b.agent_id (fun pb => pb.add_connection tid "trafficker-packager" 1)).updAgent
            tid (fun tt => if tt.drug < 0 then { tt with drug := 0 } else tt)).updAgent
            b.agent_id (fun pb => if pb.drug ≥ dmaxp then { pb with availability := some 0 }
              else { pb with availability := some 1 }) := by
    simp only [transferTPBody, hfind, Option.getD_some, if_neg (not_le.mpr hpos), hbest]
  have hidP : ∀ x : Agent,
      ({ x with drug := x.drug + min dp t.drug } : Agent).agent_id = x.agent_id :=
    fun _ => rfl
  have hidM : ∀ x : Agent,
      ({ x with drug := x.drug - min dp t.drug } : Agent).agent_id = x.agent_id :=
    fun _ => rfl
  have hidA1 : ∀ x : Agent,
      (x.add_connection b.agent_id "trafficker-packager" 1).agent_id = x.agent_id :=
    fun x => add_connection_agent_id x _ _ _
  have hidA2 : ∀ x : Agent,
      (x.add_connection tid "trafficker-packager" 1).agent_id = x.agent_id :=
    fun x => add_connection_agent_id x _ _ _
  have hidC : ∀ x : Agent,
      ((if x.drug < 0 then { x with drug := 0 } else x) : Agent).agent_id = x.agent_id := by
    intro x
    split <;> rfl
  have hidV : ∀ x : Agent,
      ((if x.drug ≥ dmaxp then { x with availability := some 0 }
        else { x with availability := some 1 }) : Agent).agent_id = x.agent_id := by
    intro x
    split <;> rfl
  have hd0 : (({ t with drug := t.drug - min dp t.drug } : Agent).add_connection
      b.agent_id "trafficker-packager" 1).drug = t.drug - min dp t.drug := by
    rw [add_connection_drug]
  have hT : ∃ t2,
      (transferTPBody eta dp dmaxp total mv Mv packagerIds
        (net, gs) tid).1.findAgent tid = some t2
      ∧ t2.drug = t.drug - min dp t.drug := by
    rw [hnet,
      findAgent_updAgent_ne _ _ _ hidV _ (Ne.symm hbt),
      findAgent_updAgent_eq _ _ _ hidC,
      findAgent_updAgent_ne _ _ _ hidA2 _ (Ne.symm hbt),
      findAgent_updAgent_eq _ _ _ hidA1,
      findAgent_updAgent_eq _ _ _ hidM,
      findAgent_updAgent_ne _ _ _ hidP _ (Ne.symm hbt),
      hfind]
    simp only [Option.map_some']
    rw [if_neg (by rw [hd0]; exact not_lt.mpr (sub_nonneg.mpr (min_le_right dp t.drug)))]
    exact ⟨_, rfl, hd0⟩
  have hB : ∃ b2,
      (transferTPBody eta dp dmaxp total mv Mv packagerIds
        (net, gs) tid).1.findAgent b.agent_id = some b2
      ∧ b2.drug = b.drug + min dp t.drug := by
    rw [hnet,
      findAgent_updAgent_eq _ _ _ hidV,
      findAgent_updAgent_ne _ _ _ hidC _ hbt,
      findAgent_updAgent_eq _ _ _ hidA2,
      findAgent_updAgent_ne _ _ _ hidA1 _ hbt,
      findAgent_updAgent_ne _ _ _ hidM _ hbt,
      findAgent_updAgent_eq _ _ _ hidP,
      hb]
    simp only [Option.map_some']
    refine ⟨_, rfl, ?_⟩
    split <;> simp [add_connection_drug]
  obtain ⟨t2, e1, d1⟩ := hT
  obtain ⟨b2, e2, d2⟩ := hB
  exact ⟨t2, b2, e1, d1, e2, d2⟩

/-- One step of the packager-to-retailer while loop moves exactly
`min(drug_package, packager.drug)`: the packager's inventory drops by
that amount (its clamp never fires) and the retailer's rises by it. -/
theorem prStep_moves {dp dmr : ℚ} {net : Network} {gs : GlobalState}
    {pid bid : ℕ} {p r : Agent}
    (hp : net.findAgent pid = some p) (hr : net.findAgent bid = some r)
    (hne : bid ≠ pid) :
    ∃ p2 r2,
      (prStep dp dmr pid bid (net, gs)).1.findAgent pid = some p2
      ∧ p2.drug = p.drug - min dp p.drug
      ∧ (prStep dp dmr pid bid (net, gs)).1.findAgent bid = some r2
      ∧ r2.drug = r.drug + min dp p.drug := by
  have hnet : (prStep dp dmr pid bid (net, gs)).1
      = (((((net.updAgent bid
            (fun x => { x with drug := x.drug + min dp p.drug })).updAgent
            pid (fun x => { x with drug := x.drug - min dp p.drug })).updAgent
            pid (fun x => x.add_connection bid "packager-retailer" 1)).updAgent
            bid (fun x => x.add_connection pid "packager-retailer" 1)).updAgent
            pid (fun x => if x.drug < 0 then { x with drug := 0 } else x)).updAgent
            bid (fun x => if x.drug ≥ dmr then { x with availability := some 0 }
              else { x with availability := some 1 }) := by
    simp only [prStep, hp, Option.getD_some]
  have hidP : ∀ x : Agent,
      ({ x with drug := x.drug + min dp p.drug } : Agent).agent_id = x.agent_id :=
    fun _ => rfl
  have hidM : ∀ x : Agent,
      ({ x with drug := x.drug - min dp p.drug } : Agent).agent_id = x.agent_id :=
    fun _ => rfl
  have hidA1 : ∀ x : Agent,
      (x.add_connection bid "packager-retailer" 1).agent_id = x.agent_id :=
    fun x => add_connection_agent_id x _ _ _
  have hidA2 : ∀ x : Agent,
      (x.add_connection pid "packager-retailer" 1).agent_id = x.agent_id :=
    fun x => add_connection_agent_id x _ _ _
  have hidC : ∀ x : Agent,
      ((if x.drug < 0 then { x with drug := 0 } else x) : Agent).agent_id = x.agent_id := by
    intro x
    split <;> rfl
  have hidV : ∀ x : Agent,
      ((if x.drug ≥ dmr then { x with availability := some 0 }
        else { x with availability := some 1 }) : Agent).agent_id = x.agent_id := by
    intro x
    split <;> rfl
  have hd0 : (({ p with drug := p.drug - min dp p.drug } : Agent).add_connection
      bid "packager-retailer" 1).drug = p.drug - min dp p.drug := by
    rw [add_connection_drug]
  have hT : ∃ p2,
      (prStep dp dmr pid bid (net, gs)).1.findAgent pid = some p2
      ∧ p2.drug = p.drug - min dp p.drug := by
    rw [hnet,
      findAgent_updAgent_ne _ _ _ hidV _ (Ne.symm hne),
      findAgent_updAgent_eq _ _ _ hidC,
      findAgent_updAgent_ne _ _ _ hidA2 _ (Ne.symm hne),
      findAgent_updAgent_eq _ _ _ hidA1,
      findAgent_updAgent_eq _ _ _ hidM,
      findAgent_updAgent_ne _ _ _ hidP _ (Ne.symm hne),
      hp]
    simp only [Option.map_some']
    rw [if_neg (by rw [hd0]; exact not_lt.mpr (sub_nonneg.mpr (min_le_right dp p.drug)))]
    exact ⟨_, rfl, hd0⟩
  have hB : ∃ r2,
      (prStep dp dmr pid bid (net, gs)).1.findAgent bid = some r2
      ∧ r2.drug = r.drug + min dp p.drug := by
    rw [hnet,
      findAgent_updAgent_eq _ _ _ hidV,
      findAgent_updAgent_ne _ _ _ hidC _ hne,
      findAgent_updAgent_eq _ _ _ hidA2,
      findAgent_updAgent_ne _ _ _ hidA1 _ hne,
      findAgent_updAgent_ne _ _ _ hidM _ hne,
      findAgent_updAgent_eq _ _ _ hidP,
      hr]
    simp only [Option.map_some']
    refine ⟨_, rfl, ?_⟩
    split <;> simp [add_connection_drug]
  obtain ⟨p2, e1, d1⟩ := hT
  obtain ⟨r2, e2, d2⟩ := hB
  exact ⟨p2, r2, e1, d1, e2, d2⟩

/-- C3: every executed tier transfer (trafficker to packager in
`_transfer_trafficker_to_packagers`, packager to retailer in one step of
the `_transfer_packagers_to_retailers` while loop) moves exactly
`min(package_size, source.drug)` — hence at most that — decreasing the
source and increasing the chosen destination by exactly that amount. -/
theorem c3_transfer_moves_min_package :
    (∀ (eta dp dmaxp : ℚ) (total : ℕ) (mv Mv : ℚ) (packagerIds : List ℕ)
        (net : Network) (gs : GlobalState) (tid : ℕ) (t b : Agent),
        net.findAgent tid = some t → 0 < t.drug →
        stageBest eta total mv Mv net t packagerIds = some b →
        b.agent_id ≠ tid →
        min dp t.drug ≤ dp ∧ min dp t.drug ≤ t.drug ∧
        ∃ t2 b2,
          (transferTPBody eta dp dmaxp total mv Mv packagerIds
              (net, gs) tid).1.findAgent tid = some t2
          ∧ t2.drug = t.drug - min dp t.drug
          ∧ (transferTPBody eta dp dmaxp total mv Mv packagerIds
              (net, gs) tid).1.findAgent b.agent_id = some b2
          ∧ b2.drug = b.drug + min dp t.drug)
    ∧ (∀ (dp dmr : ℚ) (net : Network) (gs : GlobalState) (pid bid : ℕ) (p r : Agent),
        net.findAgent pid = some p → net.findAgent bid = some r →
        0 < p.drug → bid ≠ pid →
        min dp p.drug ≤ dp ∧ min dp p.drug ≤ p.drug ∧
        ∃ p2 r2,
          (prStep dp dmr pid bid (net, gs)).1.findAgent pid = some p2
          ∧ p2.drug = p.drug - min dp p.drug
          ∧ (prStep dp dmr pid bid (net, gs)).1.findAgent bid = some r2
          ∧ r2.drug = r.drug + min dp p.drug) :=
  ⟨fun _ _ _ _ _ _ _ _ _ _ _ _ hfind hpos hbest hbt =>
    ⟨min_le_left _ _, min_le_right _ _, transferTPBody_moves hfind hpos hbest hbt⟩,
   fun _ _ _ _ _ _ _ _ hp hr _ hne =>
    ⟨min_le_left _ _, min_le_right _ _, prStep_moves hp hr hne⟩⟩

/-- Concrete trafficker for the C3 witness. -/
def agC3t : Agent :=
  { defaultAgent with agent_id := 1, agent_type := .trafficker, drug := 10 }

/-- Concrete available packager for the C3 witness. -/
def agC3p : Agent :=
  { defaultAgent with
      agent_id := 2
      agent_type := .packager
      availability := some 1
      attractiveness := 1/2 }

/-- Two-member network for the C3 witness. -/
def netC3 : Network :=
  ⟨[agC3t, agC3p], []⟩

unseal Rat.mul Rat.add Rat.inv Rat.sub in
/-- Witness for C3: on the concrete two-member network the hypotheses
hold (the stage really selects the packager) and both transfer
conclusions follow. -/
theorem c3_transfer_moves_min_package_witness :
    (netC3.findAgent 1 = some agC3t ∧ 0 < agC3t.drug
      ∧ stageBest (1/2) 2 0 1 netC3 agC3t [2] = some agC3p
      ∧ agC3p.agent_id ≠ 1 ∧ netC3.findAgent 2 = some agC3p ∧ (2 : ℕ) ≠ 1)
    ∧ (min 3 agC3t.drug ≤ 3 ∧ min 3 agC3t.drug ≤ agC3t.drug
      ∧ ∃ t2 b2,
        (transferTPBody (1/2) 3 500 2 0 1 [2] (netC3, gsW) 1).1.findAgent 1 = some t2
        ∧ t2.drug = agC3t.drug - min 3 agC3t.drug
        ∧ (transferTPBody (1/2) 3 500 2 0 1 [2]
            (netC3, gsW) 1).1.findAgent agC3p.agent_id = some b2
        ∧ b2.drug = agC3p.drug + min 3 agC3t.drug)
    ∧ (min 3 agC3t.drug ≤ 3 ∧ min 3 agC3t.drug ≤ agC3t.drug
      ∧ ∃ p2 r2,
        (prStep 3 500 1 2 (netC3, gsW)).1.findAgent 1 = some p2
        ∧ p2.drug = agC3t.drug - min 3 agC3t.drug
        ∧ (prStep 3 500 1 2 (netC3, gsW)).1.findAgent 2 = some r2
        ∧ r2.drug = agC3p.drug + min 3 agC3t.drug) := by
  have hsb : stageBest (1/2) 2 0 1 netC3 agC3t [2] = some agC3p := by
    with_unfolding_all rfl
  exact ⟨⟨rfl, by decide, hsb, by decide, rfl, by decide⟩,
    c3_transfer_moves_min_package.1 (1/2) 3 500 2 0 1 [2] netC3 gsW 1 agC3t agC3p
      rfl (by decide) hsb (by decide),
    c3_transfer_moves_min_package.2 3 500 netC3 gsW 1 2 agC3t agC3p
      rfl rfl (by decide) (by decide)⟩

/-! ## Stock bookkeeping invariant (C1) -/

/-- The C1 stock identity: the aggregate stock equals the sum of the
three tier stocks. -/
def stockEq (gs : GlobalState) : Prop :=
  gs.stock_drug
    = gs.stock_drug_traffickers + gs.stock_drug_packagers + gs.stock_drug_retailers

/-- Total drug held by the active agents of one role. -/
def tierSum (ty : AgentType) (net : Network) : ℚ :=
  ((net.get_active_agents_by_type ty).map (fun a => a.drug)).sum

/-- No two stored agent records share an id (Python keeps the agents in an
id-keyed dict, so this holds on every reachable network). -/
def NodupIds (net : Network) : Prop :=
  (net.agents.map (fun a => a.agent_id)).Nodup

/-- The id is stored, unarrested and of the given role. -/
def AliveOne (id : ℕ) (ty : AgentType) (net : Network) : Prop :=
  ∃ a, net.findAgent id = some a ∧ a.is_arrested = false ∧ a.agent_type = ty

/-- Every id of the list is stored, unarrested and of the given role. -/
def AliveTy (ids : List ℕ) (ty : AgentType) (net : Network) : Prop :=
  ∀ id ∈ ids, AliveOne id ty net

/-- The stock bookkeeping matches the network: each tier stock equals its
role's total inventory, inventories are nonnegative, stored ids are
unique, and the aggregate identity holds. -/
def StockCoupling (net : Network) (gs : GlobalState) : Prop :=
  gs.stock_drug_traffickers = tierSum .trafficker net
  ∧ gs.stock_drug_packagers = tierSum .packager net
  ∧ gs.stock_drug_retailers = tierSum .retailer net
  ∧ (∀ a ∈ net.agents, 0 ≤ a.drug)
  ∧ NodupIds net
  ∧ stockEq gs

/-- Fold invariance: a property preserved by every step survives a
`foldl`. -/
theorem foldl_inv {α β : Type} (P : β → Prop) (f : β → α → β) :
    ∀ (l : List α) (b0 : β), (∀ b a, a ∈ l → P b → P (f b a)) → P b0 →
      P (l.foldl f b0) := by
  intro l
  induction l with
  | nil => intro b0 _ h0; exact h0
  | cons a as ih =>
      intro b0 hstep h0
      rw [List.foldl_cons]
      exact ih _ (fun b x hx => hstep b x (List.mem_cons_of_mem _ hx))
        (hstep b0 a (List.mem_cons_self _ _) h0)

/-- The payload of an `enumFrom` entry is a list member. -/
theorem mem_of_mem_enumFrom {α : Type} :
    ∀ (l : List α) (n : ℕ) (p : ℕ × α), p ∈ l.enumFrom n → p.2 ∈ l := by
  intro l
  induction l with
  | nil => intro n p h; simp [List.enumFrom] at h
  | cons a as ih =>
      intro n p h
      rw [List.enumFrom] at h
      rcases List.mem_cons.mp h with h | h
      · rw [h]
        exact List.mem_cons_self _ _
      · exact List.mem_cons_of_mem _ (ih (n + 1) p h)

/-- The payload of an `enum` entry is a list member. -/
theorem mem_of_mem_enum {α : Type} {l : List α} {p : ℕ × α}
    (h : p ∈ l.enum) : p.2 ∈ l :=
  mem_of_mem_enumFrom l 0 p h

/-- The drug-accumulating fold is the sum of the drug fields. -/
theorem foldl_drug_sum :
    ∀ (l : List Agent) (q0 : ℚ),
      l.foldl (fun q a => q + a.drug) q0 = q0 + (l.map (fun a => a.drug)).sum := by
  intro l
  induction l with
  | nil => intro q0; simp
  | cons a as ih =>
      intro q0
      rw [List.foldl_cons, ih, List.map_cons, List.sum_cons]
      ring

/-- With unique ids, looking up a member's id returns that member. -/
theorem findAgent_of_mem_nodup {net : Network} (hnd : NodupIds net)
    {x : Agent} (hx : x ∈ net.agents) : net.findAgent x.agent_id = some x := by
  rcases net with ⟨l, links⟩
  unfold Network.findAgent
  unfold NodupIds at hnd
  simp only at hx hnd ⊢
  clear links
  induction l with
  | nil => simp at hx
  | cons a as ih =>
      rw [List.map_cons, List.nodup_cons] at hnd
      rcases List.mem_cons.mp hx with rfl | hx2
      · rw [List.find?_cons_of_pos _ (by simp)]
      · have hne : a.agent_id ≠ x.agent_id := by
          intro hcon
          exact hnd.1 (by rw [hcon]; exact List.mem_map.mpr ⟨x, hx2, rfl⟩)
        rw [List.find?_cons_of_neg _ (by simp [hne])]
        exact ih hnd.2 hx2

/-- An id-preserving point update does not change the stored id list. -/
theorem ids_updAgent (net : Network) (id : ℕ) (f : Agent → Agent)
    (hid : ∀ x, (f x).agent_id = x.agent_id) :
    (net.updAgent id f).agents.map (fun a => a.agent_id)
      = net.agents.map (fun a => a.agent_id) := by
  unfold Network.updAgent
  simp only [List.map_map]
  apply List.map_congr_left
  intro a _
  by_cases h : a.agent_id = id
  · simp [h, hid]
  · simp [h]

/-- An id-preserving point update preserves id uniqueness. -/
theorem nodupIds_updAgent {net : Network} {id : ℕ} {f : Agent → Agent}
    (hid : ∀ x, (f x).agent_id = x.agent_id) (hnd : NodupIds net) :
    NodupIds (net.updAgent id f) := by
  unfold NodupIds
  rw [ids_updAgent net id f hid]
  exact hnd

/-- Filtered-sum invariance under a pointwise map that preserves both the
filter predicate and the measured value. -/
theorem filter_map_sum_pres (p : Agent → Bool) (g : Agent → ℚ) (u : Agent → Agent)
    (hp : ∀ a, p (u a) = p a) (hg : ∀ a, g (u a) = g a) :
    ∀ l : List Agent, (((l.map u).filter p).map g).sum = ((l.filter p).map g).sum := by
  intro l
  induction l with
  | nil => rfl
  | cons a as ih =>
      rw [List.map_cons, List.filter_cons, List.filter_cons, hp]
      cases hpa : p a
      · rw [if_neg (by simp), if_neg (by simp)]
        exact ih
      · rw [if_pos rfl, if_pos rfl, List.map_cons, List.map_cons,
          List.sum_cons, List.sum_cons, hg, ih]

/-- Filtered-sum delta of a single point update under unique ids: only the
stored record with the updated id moves the sum, and only when it passes
the filter. -/
theorem filter_map_sum_delta (p : Agent → Bool) (g : Agent → ℚ) (f : Agent → Agent)
    (id : ℕ) (hp : ∀ a, p (f a) = p a) :
    ∀ l : List Agent, (l.map (fun a => a.agent_id)).Nodup →
      ∀ a, l.find? (fun x => x.agent_id = id) = some a →
      (((l.map (fun x => if x.agent_id = id then f x else x)).filter p).map g).sum
        = ((l.filter p).map g).sum + (if p a then g (f a) - g a else 0) := by
  intro l
  induction l with
  | nil =>
      intro _ a ha
      simp [List.find?] at ha
  | cons x xs ih =>
      intro hnd a ha
      rw [List.map_cons, List.nodup_cons] at hnd
      by_cases hx : x.agent_id = id
      · have hax : a = x := by
          rw [List.find?_cons_of_pos _ (by simp [hx])] at ha
          exact (Option.some.inj ha).symm
        subst hax
        have hxs : (xs.map (fun y => if y.agent_id = id then f y else y)) = xs := by
          conv_rhs => rw [← List.map_id xs]
          apply List.map_congr_left
          intro y hy
          have hyne : y.agent_id ≠ id := by
            intro hcon
            exact hnd.1 (by rw [hx, ← hcon]; exact List.mem_map.mpr ⟨y, hy, rfl⟩)
          simp [hyne]
        rw [List.map_cons, if_pos hx, hxs,
          List.filter_cons, List.filter_cons, hp]
        cases hpa : p a
        · rw [if_neg (by simp), if_neg (by simp)]
          simp
        · rw [if_pos rfl, if_pos rfl, List.map_cons, List.map_cons,
            List.sum_cons, List.sum_cons, if_pos rfl]
          ring
      · rw [List.find?_cons_of_neg _ (by simp [hx])] at ha
        rw [List.map_cons, if_neg hx, List.filter_cons, List.filter_cons]
        cases hpa : p x
        · rw [if_neg (by simp), if_neg (by simp)]
          exact ih hnd.2 a ha
        · rw [if_pos rfl, if_pos rfl, List.map_cons, List.map_cons,
            List.sum_cons, List.sum_cons, ih hnd.2 a ha]
          ring

/-- A point update that keeps the drug, arrest flag and role fixed keeps
every tier total fixed. -/
theorem tierSum_updAgent_pres (net : Network) (id : ℕ) (f : Agent → Agent)
    (ty : AgentType)
    (hdrug : ∀ x, (f x).drug = x.drug)
    (har : ∀ x, (f x).is_arrested = x.is_arrested)
    (hty : ∀ x, (f x).agent_type = x.agent_type) :
    tierSum ty (net.updAgent id f) = tierSum ty net := by
  unfold tierSum Network.get_active_agents_by_type Network.updAgent
  exact filter_map_sum_pres _ _ _
    (fun a => by by_cases h : a.agent_id = id <;> simp [h, har, hty])
    (fun a => by by_cases h : a.agent_id = id <;> simp [h, hdrug])
    net.agents

/-- Tier-total delta of a point update with unique ids: the affected
record moves its own tier by its drug change and no other tier. -/
theorem tierSum_updAgent_delta {net : Network} {id : ℕ} {f : Agent → Agent}
    (ty : AgentType) {a : Agent}
    (har : ∀ x, (f x).is_arrested = x.is_arrested)
    (hty : ∀ x, (f x).agent_type = x.agent_type)
    (hnd : NodupIds net) (hfind : net.findAgent id = some a) :
    tierSum ty (net.updAgent id f)
      = tierSum ty net
        + (if (!a.is_arrested && a.agent_type = ty) = true
            then (f a).drug - a.drug else 0) := by
  unfold tierSum Network.get_active_agents_by_type Network.updAgent
  exact filter_map_sum_delta _ _ _ id
    (fun x => by simp [har, hty]) net.agents hnd a hfind

/-- Tier totals of a nonnegative-inventory network are nonnegative. -/
theorem tierSum_nonneg {net : Network} (h : ∀ a ∈ net.agents, 0 ≤ a.drug)
    (ty : AgentType) : 0 ≤ tierSum ty net := by
  unfold tierSum
  apply List.sum_nonneg
  intro q hq
  obtain ⟨a, ha, rfl⟩ := List.mem_map.mp hq
  exact h a (List.mem_of_mem_filter ha)

/-- Inventory nonnegativity survives a point update whose result is
nonnegative on every stored record it can touch. -/
theorem drugs_nonneg_updAgent {net : Network} {id : ℕ} {f : Agent → Agent}
    (h : ∀ a ∈ net.agents, 0 ≤ a.drug)
    (hf : ∀ x ∈ net.agents, x.agent_id = id → 0 ≤ (f x).drug) :
    ∀ a ∈ (net.updAgent id f).agents, 0 ≤ a.drug := by
  intro a ha
  obtain ⟨x, hx, rfl⟩ := List.mem_map.mp ha
  by_cases hxid : x.agent_id = id
  · rw [if_pos hxid]
    exact hf x hx hxid
  · rw [if_neg hxid]
    exact h x hx

/-- Liveness of a stored id survives arrest- and role-preserving point
updates. -/
theorem aliveOne_updAgent {id0 : ℕ} {ty : AgentType} {net : Network}
    {id : ℕ} {f : Agent → Agent}
    (hid : ∀ x, (f x).agent_id = x.agent_id)
    (har : ∀ x, (f x).is_arrested = x.is_arrested)
    (hty : ∀ x, (f x).agent_type = x.agent_type)
    (h : AliveOne id0 ty net) : AliveOne id0 ty (net.updAgent id f) := by
  obtain ⟨a, hfind, ha1, ha2⟩ := h
  rw [AliveOne]
  rw [findAgent_updAgent net id f hid id0, hfind]
  by_cases hc : a.agent_id = id
  · exact ⟨f a, by simp [hc], by rw [har]; exact ha1, by rw [hty]; exact ha2⟩
  · exact ⟨a, by simp [hc], ha1, ha2⟩

/-- Same for a whole id list. -/
theorem aliveTy_updAgent {ids : List ℕ} {ty : AgentType} {net : Network}
    {id : ℕ} {f : Agent → Agent}
    (hid : ∀ x, (f x).agent_id = x.agent_id)
    (har : ∀ x, (f x).is_arrested = x.is_arrested)
    (hty : ∀ x, (f x).agent_type = x.agent_type)
    (h : AliveTy ids ty net) : AliveTy ids ty (net.updAgent id f) :=
  fun i hi => aliveOne_updAgent hid har hty (h i hi)

/-- The ids of the current active role members are all alive with that
role. -/
theorem aliveTy_of_active {net : Network} (hnd : NodupIds net) (ty : AgentType) :
    AliveTy ((net.get_active_agents_by_type ty).map (fun a => a.agent_id)) ty net := by
  intro id hid
  obtain ⟨a, ha, rfl⟩ := List.mem_map.mp hid
  have hmem := List.mem_of_mem_filter ha
  have hp := List.of_mem_filter ha
  simp only [Bool.and_eq_true, Bool.not_eq_true', decide_eq_true_eq] at hp
  exact ⟨a, findAgent_of_mem_nodup hnd hmem, hp.1, hp.2⟩

end Madtor
